import Mathlib

/-!
# Verification of libgit2 `src/remote.c` (remote management and tip synchronization)

This file is a shallow embedding of the remote-management code of `src/remote.c`:
the `git_remote` entity, persistence (`git_remote_save` / `git_remote_load` /
`git_remote_add`), advertised-ref listing (`git_remote_ls`), tip synchronization
(`git_remote_update_tips`) and the rename transaction (`git_remote_rename` with
its helpers).  Collaborators that live outside the analyzed sources (the refspec
engine, the config store, the reference store, the object database and the
transport) are modelled from their contracts; each such definition carries a
doc comment starting with "Modelled from the spec:".

State is passed explicitly: the config store is an association list of
key/value strings, the reference store is a map from ref names to object ids,
and every operation additionally returns a trace of the observable events it
performed (ref creations, notifications, config writes, callback invocations),
so that properties such as "no ref is written" or "the callback fires exactly
once" are statements about the trace.
-/

/-- Object ids, abstracted to naturals; `zeroOid` models the all-zero id used
as the "absent ref" sentinel in `git_remote_update_tips`. -/
abbrev Oid := Nat

/-- The all-zero object id (`memset(&old, 0, GIT_OID_RAWSZ)`). -/
def zeroOid : Oid := 0

/-- An advertised (ref name, object id) pair, as in `git_remote_head`. -/
structure RemoteHead where
  name : String
  oid : Oid
deriving DecidableEq, Repr

/-- A transport packet: either a ref advertisement (`GIT_PKT_REF`, carrying a
`git_remote_head`) or any other packet kind (capability records, flush, ...),
which `git_remote_ls` and the scan loop of `git_remote_update_tips` skip. -/
inductive Pkt where
  | ref (head : RemoteHead)
  | other
deriving DecidableEq, Repr

/-- A refspec: `src` pattern, `dst` pattern, force flag.  Both patterns may be
absent (the "no-op" refspec left by `memset`), which is a valid state. -/
structure Refspec where
  src : Option String
  dst : Option String
  force : Bool
deriving DecidableEq, Repr

/-- The `git_remote_download_tags` setting.  `unset` is the `memset`-zero
transient value; `git_remote_load` resolves it, and `git_remote_update_tips`
treats it like `auto` (it only compares against `NONE` and `ALL`). -/
inductive DownloadTags where
  | unset
  | auto
  | all
  | none
deriving DecidableEq, Repr

/-- Error outcomes of the modelled operations.  `generic` is a bare `-1`
(`GIT_ERROR`, also the value `on_error` paths return); `notFound` is
`GIT_ENOTFOUND`; `already` is `GIT_EEXISTS`; `user` is `GIT_EUSER`, the
distinguished code returned when a caller visitor cancels enumeration;
`invalidName` is the `-1` + `GITERR_CONFIG` "not a valid remote name" error of
`ensure_remote_name_is_valid`; `notConnected` is the `-1` + `GITERR_NET`
"The remote is not connected" error of `git_remote_ls`.  The constructors are
distinct because the C code distinguishes them (distinct return values or
distinct `giterr_set` classes/messages). -/
inductive GitErr where
  | generic
  | notFound
  | already
  | user
  | invalidName
  | notConnected
deriving DecidableEq, Repr

/-- The reference store's name-to-oid map (Modelled from the spec: the
Reference Store collaborator's `lookup` view). -/
abbrev RefDb := String → Option Oid

/-- `GIT_HEAD_FILE` (Modelled from the spec: the symbolic HEAD pseudo-ref
name). -/
def GIT_HEAD_FILE : String := "HEAD"

/-- `GIT_FETCH_HEAD_FILE` (Modelled from the spec: the dedicated fetch-head
pseudo-ref name). -/
def GIT_FETCH_HEAD_FILE : String := "FETCH_HEAD"

/-- `GIT_REFSPEC_TAGS`, the implicit tag-following refspec text parsed at the
top of `git_remote_update_tips`. -/
def GIT_REFSPEC_TAGS : String := "refs/tags/*:refs/tags/*"

/-- `GIT_REFS_REMOTES_DIR`, the remote-tracking namespace root. -/
def GIT_REFS_REMOTES_DIR : String := "refs/remotes/"

/-- Split a character list on a separator character (the shape of
`String.splitOn` for one-character separators, defined structurally so the
kernel can evaluate it). -/
def chSplit (sep : Char) : List Char → List (List Char)
  | [] => [[]]
  | c :: rest =>
    if c = sep then [] :: chSplit sep rest
    else
      match chSplit sep rest with
      | [] => [[c]]
      | g :: gs => (c :: g) :: gs

/-- Is the first list a prefix of the second (executable)? -/
def chHasPref : List Char → List Char → Bool
  | [], _ => true
  | _ :: _, [] => false
  | p :: ps, c :: cs => p == c && chHasPref ps cs

/-- Is the first list a suffix of the second (executable)? -/
def chHasSuf (suf s : List Char) : Bool :=
  chHasPref suf.reverse s.reverse

/-- Split a string on a separator character. -/
def strSplit (s : String) (sep : Char) : List (List Char) :=
  chSplit sep s.data

/-- Modelled from the spec: a single pattern of the Refspec Engine is either
literal or has one `*`; a name matches a glob pattern when it extends the
prefix before the `*` and the suffix after it. -/
def globMatches (pat name : String) : Bool :=
  match strSplit pat '*' with
  | [e] => name.data == e
  | [pre, suf] =>
    chHasPref pre name.data && chHasSuf suf name.data &&
      decide (pre.length + suf.length ≤ name.data.length)
  | _ => false

/-- Modelled from the spec: `git_refspec_src_matches` — does the refspec's
source pattern match the given name? -/
def refspecSrcMatches (r : Refspec) (name : String) : Bool :=
  match r.src with
  | some p => globMatches p name
  | none => false

/-- Modelled from the spec: `git_refspec_transform_r` — transform a matched
source name into the destination name by substituting the part matched by the
`*` into the destination pattern.  `none` models a transform failure. -/
def refspecTransform (r : Refspec) (name : String) : Option String :=
  match r.src, r.dst with
  | some p, some d =>
    match strSplit p '*', strSplit d '*' with
    | [_], [d0] => some ⟨d0⟩
    | [ps, pe], [ds, de] =>
      let mid := name.data.drop ps.length
      some ⟨ds ++ mid.take (mid.length - pe.length) ++ de⟩
    | _, _ => none
  | _, _ => none

/-- Modelled from the spec: a refspec pattern component is valid when nonempty,
free of the characters git forbids in ref names (which rejects decorated names
such as peel markers), and has no empty path component. -/
def validRefPattern (s : List Char) : Bool :=
  s != [] &&
  !(s.any fun c =>
      c == '^' || c == '~' || c == ':' || c == ' ' || c == '?' || c == '[' || c == '\\') &&
  ((chSplit '/' s).all fun comp => comp != [])

/-- The body of `refspecParse` after the force flag is stripped: split on the
`:`; both sides must be valid patterns and their glob-ness must agree. -/
def refspecParseRest (rest : List Char) (force : Bool) : Option Refspec :=
  match chSplit ':' rest with
  | [s, d] =>
    if validRefPattern s && validRefPattern d &&
        (chSplit '*' s).length == (chSplit '*' d).length &&
        decide ((chSplit '*' s).length ≤ 2) then
      some ⟨some ⟨s⟩, some ⟨d⟩, force⟩
    else none
  | _ => none

/-- Modelled from the spec: `git_refspec__parse` — parse `[+]src:dst` into a
refspec (the leading `+` sets the force flag). -/
def refspecParse (text : String) : Option Refspec :=
  match text.data with
  | '+' :: r => refspecParseRest r true
  | r => refspecParseRest r false

/-- Modelled from the spec: `git_refspec__serialize` — the textual form
`[+]src:dst` of a refspec. -/
def refspecSerialize (r : Refspec) : String :=
  (if r.force then "+" else "") ++ r.src.getD "" ++ ":" ++ r.dst.getD ""

/-- Modelled from the spec: `git_reference_is_valid_name` — the reference-name
validity filter of the scan loop ("Ignore malformed ref names (which also
saves us from tag peel markers)"). -/
def referenceIsValidName (name : String) : Bool :=
  name.data != [] &&
  !(name.data.any fun c =>
      c == '^' || c == '~' || c == ':' || c == ' ' || c == '?' || c == '[' ||
      c == '\\' || c == '*') &&
  ((chSplit '/' name.data).all fun comp => comp != [])

/-- Modelled from the spec: `git_reference_create_oid` of the Reference Store.
`fail` injects underlying store failures by ref name (any such failure is a
`generic` error); a non-forced create onto an existing ref fails with
`already` (`GIT_EEXISTS`) and leaves the store unchanged; otherwise the ref is
set to the given id. -/
def referenceCreateOid (fail : String → Bool) (db : RefDb) (name : String)
    (oid : Oid) (force : Bool) : Except GitErr RefDb :=
  if fail name then Except.error GitErr.generic
  else if (db name).isSome && !force then Except.error GitErr.already
  else Except.ok (fun n => if n = name then some oid else db n)

/-- The parsed implicit tag refspec `refs/tags/*:refs/tags/*`. -/
def tagspec : Refspec := ⟨some "refs/tags/*", some "refs/tags/*", false⟩

/-- The inputs of `git_remote_update_tips`: the fields of the remote it reads
(`fetch`, `download_tags`, the registered tip-update callback) and the
collaborators it calls (`git_odb_exists` as `odb`; write-failure injection for
the reference store as `fail`). -/
structure TipsEnv where
  fetch : Refspec
  download_tags : DownloadTags
  odb : Oid → Bool
  fail : String → Bool
  cb : Option (String → Oid → Oid → Int)

/-- Observable events of tip synchronization: a call to
`git_reference_create_oid` (with its target, id, force flag and whether it
succeeded) and an invocation of the tip-update notification callback. -/
inductive Ev where
  | create (name : String) (oid : Oid) (force : Bool) (ok : Bool)
  | notify (name : String) (old : Oid) (new : Oid)
deriving DecidableEq, Repr

/-- Outcome of one scan-loop iteration: continue with the next entry, or abort
the whole operation with an error. -/
inductive StepOut where
  | cont
  | abort (e : GitErr)
deriving DecidableEq, Repr

/-- The destination decision for one advertised entry (C lines 585-605):
skip it, abort on a refspec-transform failure, or track it into `refname`
with the computed `autotag` flag. -/
inductive DestCase where
  | skip
  | abortT
  | dest (refname : String) (autotag : Bool)
deriving DecidableEq, Repr

/-- The destination/autotag computation of the scan loop: invalid names are
skipped; a fetch-refspec match is transformed and never auto; otherwise, when
`download_tags` is not `NONE`, the entry is auto unless `download_tags` is
`ALL`, and is kept (with destination equal to its own name) only when the
implicit tag refspec matches; everything else is skipped. -/
def tipDest (env : TipsEnv) (h : RemoteHead) : DestCase :=
  if !referenceIsValidName h.name then DestCase.skip
  else if refspecSrcMatches env.fetch h.name then
    match refspecTransform env.fetch h.name with
    | some r => DestCase.dest r false
    | none => DestCase.abortT
  else if env.download_tags != DownloadTags.none then
    if refspecSrcMatches tagspec h.name then
      DestCase.dest h.name (env.download_tags != DownloadTags.all)
    else DestCase.skip
  else DestCase.skip

/-- The tail of a loop iteration after a create attempt: fire the tip-update
notification callback if one is registered; a negative return aborts the
operation (the C code takes the same `on_error` exit as any other failure,
returning `-1`, i.e. `generic`). -/
def stepNotify (env : TipsEnv) (db : RefDb) (evs : List Ev) (refname : String)
    (old new : Oid) : RefDb × List Ev × StepOut :=
  match env.cb with
  | Option.none => (db, evs, StepOut.cont)
  | some cb =>
    if cb refname old new < 0 then
      (db, evs ++ [Ev.notify refname old new], StepOut.abort GitErr.generic)
    else
      (db, evs ++ [Ev.notify refname old new], StepOut.cont)

/-- One iteration of the scan loop of `git_remote_update_tips` (C lines
576-631): skip non-ref packets and undesired names; in auto mode skip entries
whose object is not in the local object database; read the current value of
the destination (absent reads as the all-zero sentinel); skip when unchanged;
otherwise create the ref (forced exactly when not auto, `GIT_EEXISTS`
tolerated, any other failure aborts) and notify. -/
def updateStep (env : TipsEnv) (db : RefDb) (p : Pkt) : RefDb × List Ev × StepOut :=
  match p with
  | Pkt.other => (db, [], StepOut.cont)
  | Pkt.ref h =>
    match tipDest env h with
    | DestCase.skip => (db, [], StepOut.cont)
    | DestCase.abortT => (db, [], StepOut.abort GitErr.generic)
    | DestCase.dest refname autotag =>
      if autotag && !env.odb h.oid then (db, [], StepOut.cont)
      else
        let old := (db refname).getD zeroOid
        if old = h.oid then (db, [], StepOut.cont)
        else
          match referenceCreateOid env.fail db refname h.oid (!autotag) with
          | Except.error GitErr.already =>
            stepNotify env db [Ev.create refname h.oid (!autotag) false] refname old h.oid
          | Except.error _ =>
            (db, [Ev.create refname h.oid (!autotag) false], StepOut.abort GitErr.generic)
          | Except.ok db2 =>
            stepNotify env db2 [Ev.create refname h.oid (!autotag) true] refname old h.oid

/-- The scan loop itself: process the entries in order, stopping at the first
aborting iteration (refs already updated stay updated — no rollback). -/
def processRefs (env : TipsEnv) (db : RefDb) : List Pkt → RefDb × List Ev × Option GitErr
  | [] => (db, [], Option.none)
  | p :: rest =>
    match (updateStep env db p).2.2 with
    | StepOut.abort e => ((updateStep env db p).1, (updateStep env db p).2.1, some e)
    | StepOut.cont =>
      ((processRefs env (updateStep env db p).1 rest).1,
       (updateStep env db p).2.1 ++ (processRefs env (updateStep env db p).1 rest).2.1,
       (processRefs env (updateStep env db p).1 rest).2.2)

/-- Is the first advertised entry a ref packet named like the symbolic HEAD? -/
def isHeadFirst : List Pkt → Bool
  | Pkt.ref h :: _ => h.name == GIT_HEAD_FILE
  | _ => false

/-- `git_remote_update_tips` (C lines 537-642): an empty advertised list is a
no-op; the implicit tag refspec is parsed; when the first entry is named like
the symbolic HEAD, the fetch-head pseudo-ref is unconditionally force-created
to its id and the main scan starts at the second entry; otherwise the scan
covers the whole list.  (The C code reads the first packet's head through a
cast without checking its kind; a non-ref first packet is modelled as not
being HEAD-named.)  Returns the final reference store, the event trace, and
`none` for success or the error the operation aborted with. -/
def updateTips (env : TipsEnv) (db : RefDb) (refs : List Pkt) :
    RefDb × List Ev × Option GitErr :=
  if refs.length = 0 then (db, [], Option.none)
  else
    match refspecParse GIT_REFSPEC_TAGS with
    | Option.none => (db, [], some GitErr.generic)
    | some _ =>
      match refs with
      | [] => (db, [], Option.none)
      | Pkt.ref h0 :: rest =>
        if h0.name = GIT_HEAD_FILE then
          match referenceCreateOid env.fail db GIT_FETCH_HEAD_FILE h0.oid true with
          | Except.error _ =>
            (db, [Ev.create GIT_FETCH_HEAD_FILE h0.oid true false], some GitErr.generic)
          | Except.ok db1 =>
            let r := processRefs env db1 rest
            (r.1, Ev.create GIT_FETCH_HEAD_FILE h0.oid true true :: r.2.1, r.2.2)
        else processRefs env db refs
      | Pkt.other :: _ => processRefs env db refs

/-! ## Config store, remote entity, persistence -/

/-- Modelled from the spec: the Config Store collaborator — an ordered
association list of key/value strings (one value per key). -/
abbrev Cfg := List (String × String)

/-- Modelled from the spec: config `get` — the value of the first entry with
the given key. -/
def cfgGet (c : Cfg) (k : String) : Option String :=
  (c.find? fun kv => kv.1 == k).map fun kv => kv.2

/-- Modelled from the spec: config `set` — overwrite the existing entry or
append a new one. -/
def cfgSet (c : Cfg) (k v : String) : Cfg :=
  if c.any fun kv => kv.1 == k then
    c.map fun kv => if kv.1 = k then (k, v) else kv
  else c ++ [(k, v)]

/-- Modelled from the spec: config `delete`. -/
def cfgDel (c : Cfg) (k : String) : Cfg :=
  c.filter fun kv => kv.1 != k

/-- Modelled from the spec: `git_config_rename_section` — every key of the
section `oldSec` (i.e. starting with `oldSec ++ "."`) is moved to the same
subkey under `newSec`; values are untouched. -/
def cfgRenameSection (c : Cfg) (oldSec newSec : String) : Cfg :=
  c.map fun kv =>
    if chHasPref (oldSec ++ ".").data kv.1.data then
      (⟨newSec.data ++ kv.1.data.drop oldSec.data.length⟩, kv.2)
    else kv

/-- The `git_remote` entity: the fields of the struct that the analyzed
operations read or write (identity, urls, refspecs, tag-following policy).
`name = none` is an anonymous (in-memory) remote. -/
structure Remote where
  name : Option String
  url : String
  pushurl : Option String
  fetch : Refspec
  push : Refspec
  download_tags : DownloadTags
deriving DecidableEq, Repr

/-- The `memset`-zero refspec of a freshly allocated remote. -/
def emptyRefspec : Refspec := ⟨none, none, false⟩

/-- `ensure_remote_name_is_valid` (C lines 204-226): the name must be present
and nonempty, and `"refs/heads/test:refs/remotes/<name>/test"` must parse as a
fetch refspec. -/
def ensure_remote_name_is_valid (name : Option String) : Bool :=
  match name with
  | none => false
  | some n =>
    n != "" &&
    (refspecParse ("refs/heads/test:refs/remotes/" ++ n ++ "/test")).isSome

/-- Config-level operations recorded by the persistence and rename paths,
plus invocations of the caller-supplied problematic-refspec callback and of
the reference store's rename. -/
inductive ROp where
  | set (key val : String)
  | del (key : String)
  | renameSection (oldSec newSec : String)
  | refRename (oldName newName : String)
  | problemCb (text : String)
deriving DecidableEq, Repr

/-- `update_config_refspec` (C lines 228-260): nothing is written when either
pattern of the refspec is absent; otherwise the serialized refspec is written
to `remote.<name>.fetch` or `remote.<name>.push`. -/
def update_config_refspec (c : Cfg) (remoteName : String) (r : Refspec)
    (isFetch : Bool) : Cfg × List ROp :=
  if r.src = none || r.dst = none then (c, [])
  else
    let key := "remote." ++ remoteName ++ "." ++ (if isFetch then "fetch" else "push")
    let v := refspecSerialize r
    (cfgSet c key v, [ROp.set key v])

/-- `git_remote_save` (C lines 262-358): validate the name; write `url`;
write `pushurl` or delete its key (`GIT_ENOTFOUND` tolerated); write the
serialized fetch and push refspecs (skipped when empty); then apply the
tagopt decision table (ALL ⇒ `--tags`, NONE ⇒ `--no-tags`, otherwise delete
the key only if present).  Returns `(error?, final config, writes)`; on the
name-validation failure nothing has been touched. -/
def git_remote_save (r : Remote) (c : Cfg) : Option GitErr × Cfg × List ROp :=
  if !ensure_remote_name_is_valid r.name then (some GitErr.invalidName, c, [])
  else
    let name := r.name.getD ""
    let kUrl := "remote." ++ name ++ ".url"
    let c1 := cfgSet c kUrl r.url
    let ops1 := [ROp.set kUrl r.url]
    let kPush := "remote." ++ name ++ ".pushurl"
    let c2 := match r.pushurl with
      | some pu => cfgSet c1 kPush pu
      | none => cfgDel c1 kPush
    let ops2 : List ROp := match r.pushurl with
      | some pu => [ROp.set kPush pu]
      | none => [ROp.del kPush]
    let c3 := (update_config_refspec c2 name r.fetch true).1
    let ops3 := (update_config_refspec c2 name r.fetch true).2
    let c4 := (update_config_refspec c3 name r.push false).1
    let ops4 := (update_config_refspec c3 name r.push false).2
    let kTag := "remote." ++ name ++ ".tagopt"
    let tagopt := cfgGet c4 kTag
    let c5 := if r.download_tags = DownloadTags.all then cfgSet c4 kTag "--tags"
      else if r.download_tags = DownloadTags.none then cfgSet c4 kTag "--no-tags"
      else if tagopt.isSome then cfgDel c4 kTag
      else c4
    let ops5 : List ROp := if r.download_tags = DownloadTags.all then [ROp.set kTag "--tags"]
      else if r.download_tags = DownloadTags.none then [ROp.set kTag "--no-tags"]
      else if tagopt.isSome then [ROp.del kTag]
      else []
    (Option.none, c5, ops1 ++ ops2 ++ ops3 ++ ops4 ++ ops5)

/-- `git_remote_new` (C lines 59-100): an in-memory remote with the given
name/url; the optional fetch text is parsed (`InvalidArgument`-style failure
releases the partial object and returns the error); a nameless remote gets
`download_tags = NONE`, a named one keeps the `memset` zero (`unset`). -/
def git_remote_new (name : Option String) (url : String) (fetch : Option String) :
    Except GitErr Remote :=
  let dt := if name.isNone then DownloadTags.none else DownloadTags.unset
  match fetch with
  | none => Except.ok ⟨name, url, none, emptyRefspec, emptyRefspec, dt⟩
  | some f =>
    match refspecParse f with
    | none => Except.error GitErr.generic
    | some rs => Except.ok ⟨name, url, none, rs, emptyRefspec, dt⟩

/-- `download_tags_value` (C lines 32-57) as used by `git_remote_load`: the
default is `Auto`, overridden by a `--no-tags` / `--tags` value of
`remote.<name>.tagopt`. -/
def download_tags_value (c : Cfg) (name : String) : DownloadTags :=
  match cfgGet c ("remote." ++ name ++ ".tagopt") with
  | some v =>
    if v = "--no-tags" then DownloadTags.none
    else if v = "--tags" then DownloadTags.all
    else DownloadTags.auto
  | none => DownloadTags.auto

/-- `git_remote_load` (C lines 102-202): `remote.<name>.url` is required
(`NotFound` when absent); `pushurl` is optional; the optional `fetch`/`push`
values must parse (a parse failure aborts the load); `tagopt` resolves the
tag-following policy. -/
def git_remote_load (c : Cfg) (name : String) : Except GitErr Remote :=
  match cfgGet c ("remote." ++ name ++ ".url") with
  | none => Except.error GitErr.notFound
  | some url =>
    let pushurl := cfgGet c ("remote." ++ name ++ ".pushurl")
    let fetchRes : Except GitErr Refspec :=
      match cfgGet c ("remote." ++ name ++ ".fetch") with
      | none => Except.ok emptyRefspec
      | some v =>
        match refspecParse v with
        | none => Except.error GitErr.generic
        | some rs => Except.ok rs
    let pushRes : Except GitErr Refspec :=
      match cfgGet c ("remote." ++ name ++ ".push") with
      | none => Except.ok emptyRefspec
      | some v =>
        match refspecParse v with
        | none => Except.error GitErr.generic
        | some rs => Except.ok rs
    match fetchRes, pushRes with
    | Except.error e, _ => Except.error e
    | _, Except.error e => Except.error e
    | Except.ok fr, Except.ok pr =>
      Except.ok ⟨some name, url, pushurl, fr, pr, download_tags_value c name⟩

/-- `git_remote_add` (C lines 753-774): build the default forced fetch refspec
`+refs/heads/*:refs/remotes/<name>/*`, construct the remote, and immediately
save it; on a construction or save failure the partial remote is freed (no
remote is returned) and the error is surfaced. -/
def git_remote_add (c : Cfg) (name url : String) :
    Option GitErr × Option Remote × Cfg × List ROp :=
  let fetch := "+refs/heads/*:refs/remotes/" ++ name ++ "/*"
  match git_remote_new (some name) url (some fetch) with
  | Except.error e => (some e, none, c, [])
  | Except.ok r =>
    match (git_remote_save r c).1 with
    | some e => (some e, none, (git_remote_save r c).2.1, (git_remote_save r c).2.2)
    | Option.none =>
      (Option.none, some r, (git_remote_save r c).2.1, (git_remote_save r c).2.2)

/-! ## Connection state and advertised-ref listing -/

/-- The transport handle as `git_remote_ls` sees it: a connected flag and the
vector of advertisement packets (Modelled from the spec: the Transport
collaborator). -/
structure Transport where
  connected : Bool
  refs : List Pkt
deriving DecidableEq, Repr

/-- The visiting loop of `git_remote_ls`: non-ref packets are skipped; the
visitor runs per ref head; a non-zero visitor return aborts the enumeration
with `GIT_EUSER`.  Returns the result and the list of heads the visitor was
invoked on, in order. -/
def lsVisit (cb : RemoteHead → Int) : List Pkt → Option GitErr × List RemoteHead
  | [] => (Option.none, [])
  | Pkt.other :: rest => lsVisit cb rest
  | Pkt.ref h :: rest =>
    if cb h ≠ 0 then (some GitErr.user, [h])
    else
      let r := lsVisit cb rest
      (r.1, h :: r.2)

/-- `git_remote_ls` (C lines 494-520): requires an attached, connected
transport (else the `GITERR_NET` "The remote is not connected" error, before
any visitor call); then visits the ref packets. -/
def git_remote_ls (tr : Option Transport) (cb : RemoteHead → Int) :
    Option GitErr × List RemoteHead :=
  match tr with
  | none => (some GitErr.notConnected, [])
  | some t =>
    if !t.connected then (some GitErr.notConnected, [])
    else lsVisit cb t.refs

/-- The ref heads carried by the ref-kind packets of a list, in order. -/
def refHeads (l : List Pkt) : List RemoteHead :=
  l.filterMap fun p => match p with
    | Pkt.ref h => some h
    | Pkt.other => none

/-! ## The rename transaction -/

/-- The reference store as an enumerable list of (name, oid) entries
(Modelled from the spec: the Reference Store's `enumerate` view, used by the
rename transaction). -/
abbrev RefList := List (String × Oid)

/-- Modelled from the spec: `git_reference_rename` — renaming a ref moves its
entry to the new name; the source must exist and a distinct existing target
collides. -/
def refsRename (refs : RefList) (oldName newName : String) : Except GitErr RefList :=
  if (refs.find? fun kv => kv.1 == oldName).isNone then Except.error GitErr.notFound
  else if oldName != newName && (refs.find? fun kv => kv.1 == newName).isSome then
    Except.error GitErr.already
  else Except.ok (refs.map fun kv => if kv.1 = oldName then (newName, kv.2) else kv)

/-- The repository-level mutable state the rename transaction touches. -/
structure RepoState where
  cfg : Cfg
  refs : RefList
deriving DecidableEq, Repr

/-- `ensure_remote_doesnot_exist` (C lines 811-831): loading the target name
must yield `NotFound`; a successful load is an `AlreadyExists` error and any
other load failure propagates. -/
def ensure_remote_doesnot_exist (c : Cfg) (name : String) : Option GitErr :=
  match git_remote_load c name with
  | Except.error GitErr.notFound => Option.none
  | Except.error e => some e
  | Except.ok _ => some GitErr.already

/-- `rename_remote_config_section` (C lines 833-858): one store-level rename
of the section `remote.<old>` to `remote.<new>`. -/
def rename_remote_config_section (c : Cfg) (oldName newName : String) : Cfg × List ROp :=
  (cfgRenameSection c ("remote." ++ oldName) ("remote." ++ newName),
   [ROp.renameSection ("remote." ++ oldName) ("remote." ++ newName)])

/-- Does a config key match the `branch\..+\.remote` pattern of
`update_branch_remote_config_entry`? -/
def keyIsBranchRemote (k : String) : Bool :=
  chHasPref "branch.".data k.data && chHasSuf ".remote".data k.data &&
    decide ("branch.".data.length + ".remote".data.length < k.data.length)

/-- `update_branch_remote_config_entry` (C lines 867-901): every
`branch.<x>.remote` entry whose value equals the old name is set to the new
name. -/
def update_branch_remote_config_entry (c : Cfg) (oldName newName : String) :
    Cfg × List ROp :=
  (c.map fun kv =>
     if keyIsBranchRemote kv.1 && kv.2 = oldName then (kv.1, newName) else kv,
   (c.filter fun kv => keyIsBranchRemote kv.1 && kv.2 = oldName).map fun kv =>
     ROp.set kv.1 newName)

/-- `rename_one_remote_reference`'s target-name computation (C lines 921-926):
the new name is `refs/remotes/<new>` followed by what remains of the old ref
name after dropping `strlen("refs/remotes/") + strlen(<old>)` characters. -/
def rename_one_ref_newname (oldName newName ref : String) : String :=
  ⟨GIT_REFS_REMOTES_DIR.data ++ newName.data ++
    ref.data.drop (GIT_REFS_REMOTES_DIR.data.length + oldName.data.length)⟩

/-- The per-name loop of `rename_remote_references`: rename each collected
ref in order, stopping at the first failure (no compensation). -/
def renameRefsGo (oldName newName : String) (refs : RefList) :
    List String → RefList × List ROp × Option GitErr
  | [] => (refs, [], Option.none)
  | n :: rest =>
    match refsRename refs n (rename_one_ref_newname oldName newName n) with
    | Except.error e => (refs, [], some e)
    | Except.ok refs1 =>
      ((renameRefsGo oldName newName refs1 rest).1,
       ROp.refRename n (rename_one_ref_newname oldName newName n) ::
         (renameRefsGo oldName newName refs1 rest).2.1,
       (renameRefsGo oldName newName refs1 rest).2.2)

/-- `rename_remote_references` (C lines 939-972): collect every ref under
`refs/remotes/` (the filter of `rename_cb` checks only this root, not the old
remote's subtree), then rename each via the name splice above. -/
def rename_remote_references (refs : RefList) (oldName newName : String) :
    RefList × List ROp × Option GitErr :=
  let names := (refs.map fun kv => kv.1).filter fun n =>
    chHasPref GIT_REFS_REMOTES_DIR.data n.data
  renameRefsGo oldName newName refs names

/-- Index of the first occurrence of `sub` in `s` (the `strstr` of
`rename_fetch_refspecs`), counted in characters. -/
def chFindSub (sub : List Char) : List Char → Option Nat
  | [] => if chHasPref sub [] then some 0 else none
  | c :: rest =>
    if chHasPref sub (c :: rest) then some 0
    else (chFindSub sub rest).map fun i => i + 1

/-- `git_buf_splice` as used by `rename_fetch_refspecs`: replace `len`
characters starting at `at_` with `ins`. -/
def chSplice (s : List Char) (at_ len : Nat) (ins : List Char) : List Char :=
  s.take at_ ++ ins ++ s.drop (at_ + len)

/-- `rename_fetch_refspecs` (C lines 974-1034): nothing to do for a fully
empty refspec; an in-memory remote (`remote->name` is the null pointer) gets
the problematic-refspec callback on the serialized text (negative return ⇒
`GIT_EUSER`); a persisted remote looks for the literal `":refs/remotes/<old>/"`
substring of the serialized text — absent means the callback fires and the
refspec stays as-is, present means the old name is spliced to the new one,
re-parsed into the in-memory refspec and persisted under the new name. -/
def rename_fetch_refspecs (r : Remote) (st : RepoState) (newName : String)
    (cb : String → Int) : Remote × RepoState × List ROp × Option GitErr :=
  if r.fetch.src = none && r.fetch.dst = none then (r, st, [], Option.none)
  else
    let serialized := refspecSerialize r.fetch
    match r.name with
    | none =>
      (r, st, [ROp.problemCb serialized],
       if cb serialized < 0 then some GitErr.user else Option.none)
    | some oldName =>
      let dstMark := ":refs/remotes/" ++ oldName ++ "/"
      match chFindSub dstMark.data serialized.data with
      | none =>
        (r, st, [ROp.problemCb serialized],
         if cb serialized < 0 then some GitErr.user else Option.none)
      | some pos =>
        let spliced : String :=
          ⟨chSplice serialized.data (pos + ":refs/remotes/".data.length)
            oldName.data.length newName.data⟩
        match refspecParse spliced with
        | none => (r, st, [], some GitErr.generic)
        | some rs =>
          ({ r with fetch := rs },
           { st with cfg := (update_config_refspec st.cfg newName rs true).1 },
           (update_config_refspec st.cfg newName rs true).2, Option.none)

/-- `git_remote_rename` (C lines 1036-1094): preconditions (target unused and
valid); an anonymous remote runs only the refspec step, then sets the
in-memory name and saves; a persisted remote renames the config section,
repairs `branch.<x>.remote` entries, renames the tracking refs, runs the
refspec step, and updates the in-memory name last.  Each failure aborts the
remaining steps with no compensation. -/
def git_remote_rename (r : Remote) (st : RepoState) (newName : String)
    (cb : String → Int) : Remote × RepoState × List ROp × Option GitErr :=
  match ensure_remote_doesnot_exist st.cfg newName with
  | some e => (r, st, [], some e)
  | Option.none =>
  if !ensure_remote_name_is_valid (some newName) then
    (r, st, [], some GitErr.invalidName)
  else
    match r.name with
    | none =>
      let step1 := rename_fetch_refspecs r st newName cb
      match step1.2.2.2 with
      | some e => (step1.1, step1.2.1, step1.2.2.1, some e)
      | Option.none =>
        let r2 : Remote := { step1.1 with name := some newName }
        (r2, { step1.2.1 with cfg := (git_remote_save r2 step1.2.1.cfg).2.1 },
         step1.2.2.1 ++ (git_remote_save r2 step1.2.1.cfg).2.2,
         (git_remote_save r2 step1.2.1.cfg).1)
    | some oldName =>
      let cA := (rename_remote_config_section st.cfg oldName newName).1
      let opsA := (rename_remote_config_section st.cfg oldName newName).2
      let cB := (update_branch_remote_config_entry cA oldName newName).1
      let opsB := (update_branch_remote_config_entry cA oldName newName).2
      let stepC := rename_remote_references st.refs oldName newName
      match stepC.2.2 with
      | some e => (r, ⟨cB, stepC.1⟩, opsA ++ opsB ++ stepC.2.1, some e)
      | Option.none =>
        let stepD := rename_fetch_refspecs r ⟨cB, stepC.1⟩ newName cb
        match stepD.2.2.2 with
        | some e => (stepD.1, stepD.2.1, opsA ++ opsB ++ stepC.2.1 ++ stepD.2.2.1, some e)
        | Option.none =>
          ({ stepD.1 with name := some newName }, stepD.2.1,
           opsA ++ opsB ++ stepC.2.1 ++ stepD.2.2.1, Option.none)

/-! ## Derived views of the scan loop, used to state the claims -/

/-- The effective update target of one advertised head: its destination name
and advertised id, or `none` when the scan skips it before even reading the
current value (invalid name, no refspec match, or an auto entry whose object
is absent from the object database). -/
def effDest (env : TipsEnv) (h : RemoteHead) : Option (String × Oid) :=
  match tipDest env h with
  | DestCase.dest d a => if a && !env.odb h.oid then none else some (d, h.oid)
  | _ => none

/-- `effDest` lifted to packets (non-ref packets have no target). -/
def pktEff (env : TipsEnv) : Pkt → Option (String × Oid)
  | Pkt.ref h => effDest env h
  | Pkt.other => none

/-- The (destination, advertised id) pairs an advertised list can update. -/
def destOids (env : TipsEnv) (l : List Pkt) : List (String × Oid) :=
  l.filterMap (pktEff env)

/-- The destination name of one advertised head, when the scan tracks it. -/
def destName (env : TipsEnv) (h : RemoteHead) : Option String :=
  match tipDest env h with
  | DestCase.dest d _ => some d
  | _ => none

/-- Did this event record a successful `git_reference_create_oid` call, or no
create at all?  (Used to exclude tolerated `GIT_EEXISTS` collisions.) -/
def evOk : Ev → Prop
  | Ev.create _ _ _ ok => ok = true
  | Ev.notify _ _ _ => True

instance (ev : Ev) : Decidable (evOk ev) := by
  cases ev with
  | create n o f ok => exact (inferInstance : Decidable (ok = true))
  | notify n o1 o2 => exact (inferInstance : Decidable True)

/-- Is an operation an invocation of the problematic-refspec callback? -/
def isProblemCb : ROp → Bool
  | ROp.problemCb _ => true
  | _ => false

/-- Is an event a notification-callback invocation? -/
def isNotify : Ev → Bool
  | Ev.notify _ _ _ => true
  | _ => false

/-! ## Concrete instances used by witnesses and counterexamples -/

/-- A remote whose fetch refspec is `+refs/heads/*:refs/remotes/o/*`, tags
policy Auto, object database containing exactly object 5, no write-failure
injection, with a tip-update callback that always accepts. -/
def envA : TipsEnv :=
  ⟨⟨some "refs/heads/*", some "refs/remotes/o/*", true⟩, DownloadTags.auto,
   fun o => o == 5, fun _ => false, some fun _ _ _ => 0⟩

/-- Like `envA` but with a tip-update callback that always cancels. -/
def envNeg : TipsEnv :=
  ⟨⟨some "refs/heads/*", some "refs/remotes/o/*", true⟩, DownloadTags.auto,
   fun o => o == 5, fun _ => false, some fun _ _ _ => -1⟩

/-- Like `envA` but with no tip-update callback and every object present. -/
def envNoCb : TipsEnv :=
  ⟨⟨some "refs/heads/*", some "refs/remotes/o/*", true⟩, DownloadTags.auto,
   fun _ => true, fun _ => false, Option.none⟩

/-- Like `envA` but the reference store fails every write to
`refs/remotes/o/m`. -/
def envFail : TipsEnv :=
  ⟨⟨some "refs/heads/*", some "refs/remotes/o/*", true⟩, DownloadTags.auto,
   fun o => o == 5, fun n => n == "refs/remotes/o/m", some fun _ _ _ => 0⟩

/-- A reference store holding only `refs/tags/v1 ↦ 7`. -/
def dbTag : RefDb := fun n => if n = "refs/tags/v1" then some 7 else none

/-- The empty reference store. -/
def dbEmpty : RefDb := fun _ => none

/-- The always-accepting problematic-refspec callback. -/
def cbZero : String → Int := fun _ => 0

/-- An anonymous remote with the standard-looking fetch refspec
`+refs/heads/*:refs/remotes/foo/*`. -/
def remoteAnon : Remote :=
  ⟨none, "u", none, ⟨some "refs/heads/*", some "refs/remotes/foo/*", true⟩,
   emptyRefspec, DownloadTags.none⟩

/-- A persisted remote `origin` whose fetch refspec destination does not lie
under `refs/remotes/origin/`. -/
def remoteCustom : Remote :=
  ⟨some "origin", "u", none, ⟨some "refs/heads/*", some "refs/custom/*", true⟩,
   emptyRefspec, DownloadTags.auto⟩

/-- The persisted configuration of `remoteCustom`, with one tracking branch. -/
def cfgCustom : Cfg :=
  [("remote.origin.url", "u"),
   ("remote.origin.fetch", "+refs/heads/*:refs/custom/*"),
   ("branch.b.remote", "origin")]

/-! ## Theorems -/

theorem refspecParse_tags : refspecParse GIT_REFSPEC_TAGS = some tagspec := by decide

theorem stepNotify_fst (env : TipsEnv) (db : RefDb) (evs : List Ev) (r : String)
    (o1 o2 : Oid) : (stepNotify env db evs r o1 o2).1 = db := by
  unfold stepNotify
  cases env.cb with
  | none => rfl
  | some cb => by_cases h : cb r o1 o2 < 0 <;> simp [h]

theorem updateStep_skip (env : TipsEnv) (db : RefDb) (h : RemoteHead)
    (hd : tipDest env h = DestCase.skip) :
    updateStep env db (Pkt.ref h) = (db, [], StepOut.cont) := by
  simp [updateStep, hd]

theorem updateStep_autoskip (env : TipsEnv) (db : RefDb) (h : RemoteHead) (d : String)
    (hd : tipDest env h = DestCase.dest d true) (ho : env.odb h.oid = false) :
    updateStep env db (Pkt.ref h) = (db, [], StepOut.cont) := by
  simp [updateStep, hd, ho]

theorem updateStep_uptodate (env : TipsEnv) (db : RefDb) (h : RemoteHead) (d : String)
    (a : Bool) (hd : tipDest env h = DestCase.dest d a)
    (he : (db d).getD zeroOid = h.oid) :
    updateStep env db (Pkt.ref h) = (db, [], StepOut.cont) := by
  simp only [updateStep, hd]
  by_cases hb : (a && !env.odb h.oid) = true
  · simp [hb]
  · simp [hb, he]

/-- C1: during tip synchronization with `download_tags = Auto`, an advertised
entry matching the implicit tag refspec but not the fetch refspec, whose
object id is absent from the local object database, is skipped: its scan
iteration leaves the reference store unchanged, performs no
`git_reference_create_oid` call and fires no notification. -/
theorem c1_auto_tag_object_absent (env : TipsEnv) (db : RefDb) (h : RemoteHead)
    (hdl : env.download_tags = DownloadTags.auto)
    (htag : refspecSrcMatches tagspec h.name = true)
    (hfetch : refspecSrcMatches env.fetch h.name = false)
    (hodb : env.odb h.oid = false) :
    updateStep env db (Pkt.ref h) = (db, [], StepOut.cont) := by
  by_cases hv : referenceIsValidName h.name = true
  · have hd : tipDest env h = DestCase.dest h.name true := by
      simp [tipDest, hv, hfetch, htag, hdl]
    exact updateStep_autoskip env db h h.name hd hodb
  · have hd : tipDest env h = DestCase.skip := by
      rw [Bool.not_eq_true] at hv
      simp [tipDest, hv]
    exact updateStep_skip env db h hd

theorem c1_witness :
    updateStep envA dbTag (Pkt.ref ⟨"refs/tags/v9", 3⟩) = (dbTag, [], StepOut.cont) :=
  c1_auto_tag_object_absent envA dbTag ⟨"refs/tags/v9", 3⟩
    (by decide) (by decide) (by decide) (by decide)

theorem stepNotify_create_mem (env : TipsEnv) (db : RefDb) (evs : List Ev)
    (r : String) (o1 o2 : Oid) (n : String) (o : Oid) (f k : Bool) :
    Ev.create n o f k ∈ (stepNotify env db evs r o1 o2).2.1 →
    Ev.create n o f k ∈ evs := by
  unfold stepNotify
  cases env.cb with
  | none => exact id
  | some cb =>
    by_cases hcb : cb r o1 o2 < 0 <;> simp [hcb]

/-- Every `git_reference_create_oid` call recorded by one scan iteration of a
tracked entry targets its destination with the advertised id, forced exactly
when the entry is not auto. -/
theorem updateStep_create_char (env : TipsEnv) (db : RefDb) (h : RemoteHead)
    (d : String) (a : Bool) (hd : tipDest env h = DestCase.dest d a) :
    ∀ n o f k, Ev.create n o f k ∈ (updateStep env db (Pkt.ref h)).2.1 →
      n = d ∧ o = h.oid ∧ f = !a := by
  · intro n o f k hm
    simp only [updateStep, hd] at hm
    by_cases hb : (a && !env.odb h.oid) = true
    · simp [hb] at hm
    · simp only [hb, if_false, Bool.false_eq_true] at hm
      by_cases heq : ((db d).getD zeroOid) = h.oid
      · simp [heq] at hm
      · simp only [heq, if_false] at hm
        by_cases hf : env.fail d = true
        · simp [referenceCreateOid, hf] at hm
          simp [hm.1, hm.2.1, hm.2.2.1]
        · by_cases hs : ((db d).isSome && !(!a)) = true
          · simp only [referenceCreateOid, hf, Bool.false_eq_true, if_false, hs,
              if_true] at hm
            have := stepNotify_create_mem env db _ d ((db d).getD zeroOid) h.oid n o f k hm
            simp at this
            simp [this.1, this.2.1, this.2.2.1]
          · simp only [referenceCreateOid, hf, Bool.false_eq_true, if_false, hs] at hm
            have := stepNotify_create_mem env _ _ d ((db d).getD zeroOid) h.oid n o f k hm
            simp at this
            simp [this.1, this.2.1, this.2.2.1]

/-- C6: in tip synchronization, for a tracked entry with destination `d` and
autotag flag `a`: every `git_reference_create_oid` call of its iteration
targets `d` with the advertised id and is forced exactly when the entry is
not auto; an auto entry colliding with an existing, differing local ref is
tolerated as a skip (`GIT_EEXISTS` — the store is unchanged and the iteration
continues rather than failing); any other write failure aborts the whole
operation. -/
theorem c6_force_flag_and_collision (env : TipsEnv) (db : RefDb) (h : RemoteHead)
    (d : String) (a : Bool) (hd : tipDest env h = DestCase.dest d a) :
    (∀ n o f k, Ev.create n o f k ∈ (updateStep env db (Pkt.ref h)).2.1 →
        n = d ∧ o = h.oid ∧ f = !a)
    ∧ (a = true → env.cb = Option.none → env.odb h.oid = true →
        env.fail d = false → ∀ v, db d = some v → v ≠ h.oid →
        updateStep env db (Pkt.ref h) = (db, [Ev.create d h.oid false false], StepOut.cont))
    ∧ (env.fail d = true → (a = true → env.odb h.oid = true) →
        (db d).getD zeroOid ≠ h.oid →
        updateStep env db (Pkt.ref h) =
          (db, [Ev.create d h.oid (!a) false], StepOut.abort GitErr.generic)) := by
  refine ⟨updateStep_create_char env db h d a hd, ?_, ?_⟩
  · intro ha hcb hodb hf v hv hne
    subst ha
    simp only [updateStep, hd, hodb, Bool.not_true, Bool.and_false, Bool.false_eq_true,
      if_false, hv, Option.getD_some]
    rw [if_neg hne]
    simp only [referenceCreateOid, hf, Bool.false_eq_true, if_false, hv, Option.isSome_some,
      Bool.not_true, Bool.not_false, Bool.and_true, if_true]
    simp [stepNotify, hcb]
  · intro hf hao hne
    have hb : (a && !env.odb h.oid) = false := by
      cases a with
      | false => rfl
      | true => simp [hao rfl]
    simp only [updateStep, hd, hb, Bool.false_eq_true, if_false]
    rw [if_neg hne]
    simp [referenceCreateOid, hf]

theorem c6_witness :
    updateStep envNoCb dbTag (Pkt.ref ⟨"refs/tags/v1", 5⟩) =
      (dbTag, [Ev.create "refs/tags/v1" 5 false false], StepOut.cont) :=
  (c6_force_flag_and_collision envNoCb dbTag ⟨"refs/tags/v1", 5⟩ "refs/tags/v1" true
      (by decide)).2.1 rfl rfl (by decide) (by decide) 7 (by decide) (by decide)

theorem updateStep_create_name (env : TipsEnv) (db : RefDb) (p : Pkt) (n : String)
    (o : Oid) (f k : Bool) (hm : Ev.create n o f k ∈ (updateStep env db p).2.1) :
    ∃ h, p = Pkt.ref h ∧ destName env h = some n := by
  cases p with
  | other => simp [updateStep] at hm
  | ref h =>
    refine ⟨h, rfl, ?_⟩
    cases hd : tipDest env h with
    | skip => rw [updateStep_skip env db h hd] at hm; simp at hm
    | abortT => simp [updateStep, hd] at hm
    | dest d a =>
      have hc := updateStep_create_char env db h d a hd n o f k hm
      simp [destName, hd, hc.1]

theorem processRefs_create_name (env : TipsEnv) (n : String) (o : Oid) (f k : Bool) :
    ∀ (l : List Pkt) (db : RefDb), Ev.create n o f k ∈ (processRefs env db l).2.1 →
      ∃ h, Pkt.ref h ∈ l ∧ destName env h = some n := by
  intro l
  induction l with
  | nil => intro db hm; simp [processRefs] at hm
  | cons p rest ih =>
    intro db hm
    simp only [processRefs] at hm
    cases hout : (updateStep env db p).2.2 with
    | abort e =>
      rw [hout] at hm
      simp only at hm
      obtain ⟨h, hp, hdn⟩ := updateStep_create_name env db p n o f k hm
      exact ⟨h, by rw [← hp]; exact List.mem_cons_self p rest, hdn⟩
    | cont =>
      rw [hout] at hm
      simp only [List.mem_append] at hm
      rcases hm with hm | hm
      · obtain ⟨h, hp, hdn⟩ := updateStep_create_name env db p n o f k hm
        exact ⟨h, by rw [← hp]; exact List.mem_cons_self p rest, hdn⟩
      · obtain ⟨h, hp, hdn⟩ := ih (updateStep env db p).1 hm
        exact ⟨h, List.mem_cons_of_mem p hp, hdn⟩

theorem updateTips_eq_processRefs (env : TipsEnv) (db : RefDb) (refs : List Pkt)
    (hh : isHeadFirst refs = false) :
    updateTips env db refs = processRefs env db refs := by
  cases refs with
  | nil => simp [updateTips, processRefs]
  | cons p rest =>
    cases p with
    | ref h0 =>
      have hne : h0.name ≠ GIT_HEAD_FILE := by
        simp [isHeadFirst] at hh
        exact hh
      simp [updateTips, refspecParse_tags, hne]
    | other => simp [updateTips, refspecParse_tags]

theorem mem_refHeads (h : RemoteHead) (l : List Pkt) (hm : Pkt.ref h ∈ l) :
    h ∈ refHeads l := by
  rw [refHeads, List.mem_filterMap]
  exact ⟨Pkt.ref h, hm, rfl⟩

/-- C5: only a first-position advertised entry named like the symbolic HEAD
triggers the fetch-head pseudo-ref write: (1) with such a first entry, the
run is exactly the forced fetch-head creation followed by the ordinary scan
of the remaining entries; (2) when the first entry is not such, the run is
the ordinary scan of the whole list, with no special handling anywhere; and
(3) the ordinary scan never writes the fetch-head pseudo-ref unless some
entry's refspec destination is literally that name — so a HEAD-named entry at
a later position is processed as an ordinary (non-matching, skipped) entry. -/
theorem c5_head_only_first :
    (∀ (env : TipsEnv) (db : RefDb) (h0 : RemoteHead) (rest : List Pkt),
      h0.name = GIT_HEAD_FILE → env.fail GIT_FETCH_HEAD_FILE = false →
      updateTips env db (Pkt.ref h0 :: rest) =
        ((processRefs env (fun n => if n = GIT_FETCH_HEAD_FILE then some h0.oid else db n) rest).1,
         Ev.create GIT_FETCH_HEAD_FILE h0.oid true true ::
           (processRefs env (fun n => if n = GIT_FETCH_HEAD_FILE then some h0.oid else db n) rest).2.1,
         (processRefs env (fun n => if n = GIT_FETCH_HEAD_FILE then some h0.oid else db n) rest).2.2))
    ∧ (∀ (env : TipsEnv) (db : RefDb) (refs : List Pkt),
      isHeadFirst refs = false → updateTips env db refs = processRefs env db refs)
    ∧ (∀ (env : TipsEnv) (db : RefDb) (refs : List Pkt),
      (∀ h ∈ refHeads refs, destName env h ≠ some GIT_FETCH_HEAD_FILE) →
      ∀ o f k, Ev.create GIT_FETCH_HEAD_FILE o f k ∉ (processRefs env db refs).2.1) := by
  refine ⟨?_, updateTips_eq_processRefs, ?_⟩
  · intro env db h0 rest hname hfail
    simp [updateTips, refspecParse_tags, hname, referenceCreateOid, hfail]
  · intro env db refs hno o f k hm
    obtain ⟨h, hp, hdn⟩ := processRefs_create_name env GIT_FETCH_HEAD_FILE o f k refs db hm
    exact hno h (mem_refHeads h refs hp) hdn

theorem c5_witness :
    (updateTips envA dbEmpty [Pkt.ref ⟨"HEAD", 3⟩, Pkt.ref ⟨"refs/heads/m", 5⟩] =
      ((processRefs envA (fun n => if n = GIT_FETCH_HEAD_FILE then some 3 else dbEmpty n)
          [Pkt.ref ⟨"refs/heads/m", 5⟩]).1,
       Ev.create GIT_FETCH_HEAD_FILE 3 true true ::
         (processRefs envA (fun n => if n = GIT_FETCH_HEAD_FILE then some 3 else dbEmpty n)
           [Pkt.ref ⟨"refs/heads/m", 5⟩]).2.1,
       (processRefs envA (fun n => if n = GIT_FETCH_HEAD_FILE then some 3 else dbEmpty n)
         [Pkt.ref ⟨"refs/heads/m", 5⟩]).2.2))
    ∧ updateTips envA dbEmpty [Pkt.ref ⟨"refs/heads/m", 5⟩, Pkt.ref ⟨"HEAD", 3⟩] =
        processRefs envA dbEmpty [Pkt.ref ⟨"refs/heads/m", 5⟩, Pkt.ref ⟨"HEAD", 3⟩]
    ∧ Ev.create GIT_FETCH_HEAD_FILE 3 true true ∉
        (processRefs envA dbEmpty [Pkt.ref ⟨"refs/heads/m", 5⟩, Pkt.ref ⟨"HEAD", 3⟩]).2.1 :=
  ⟨c5_head_only_first.1 envA dbEmpty ⟨"HEAD", 3⟩ [Pkt.ref ⟨"refs/heads/m", 5⟩]
      (by decide) (by decide),
   c5_head_only_first.2.1 envA dbEmpty [Pkt.ref ⟨"refs/heads/m", 5⟩, Pkt.ref ⟨"HEAD", 3⟩]
      (by decide),
   c5_head_only_first.2.2 envA dbEmpty [Pkt.ref ⟨"refs/heads/m", 5⟩, Pkt.ref ⟨"HEAD", 3⟩]
      (by decide) 3 true true⟩

theorem processRefs_append_ok (env : TipsEnv) :
    ∀ (l1 : List Pkt) (db db1 : RefDb) (t1 : List Ev),
      processRefs env db l1 = (db1, t1, Option.none) →
      ∀ l2, processRefs env db (l1 ++ l2) =
        ((processRefs env db1 l2).1, t1 ++ (processRefs env db1 l2).2.1,
         (processRefs env db1 l2).2.2) := by
  intro l1
  induction l1 with
  | nil =>
    intro db db1 t1 hrun l2
    simp only [processRefs, Prod.mk.injEq] at hrun
    obtain ⟨h1, h2, -⟩ := hrun
    subst h1; subst h2
    simp
  | cons p rest ih =>
    intro db db1 t1 hrun l2
    rw [List.cons_append]
    simp only [processRefs] at hrun ⊢
    cases hout : (updateStep env db p).2.2 with
    | abort e =>
      rw [hout] at hrun
      have hrun2 : ((updateStep env db p).1, (updateStep env db p).2.1, some e) =
          (db1, t1, (Option.none : Option GitErr)) := hrun
      simp only [Prod.mk.injEq] at hrun2
      exact absurd hrun2.2.2 (by simp)
    | cont =>
      rw [hout] at hrun
      have hrun2 : ((processRefs env (updateStep env db p).1 rest).1,
          (updateStep env db p).2.1 ++ (processRefs env (updateStep env db p).1 rest).2.1,
          (processRefs env (updateStep env db p).1 rest).2.2) =
          (db1, t1, (Option.none : Option GitErr)) := hrun
      simp only [Prod.mk.injEq] at hrun2
      obtain ⟨h1, h2, h3⟩ := hrun2
      have hres : processRefs env (updateStep env db p).1 rest =
          (db1, (processRefs env (updateStep env db p).1 rest).2.1, Option.none) := by
        rw [← h1, ← h3]
      have hrw := ih (updateStep env db p).1 db1
        (processRefs env (updateStep env db p).1 rest).2.1 hres l2
      show ((processRefs env (updateStep env db p).1 (rest ++ l2)).1,
          (updateStep env db p).2.1 ++ (processRefs env (updateStep env db p).1 (rest ++ l2)).2.1,
          (processRefs env (updateStep env db p).1 (rest ++ l2)).2.2) =
        ((processRefs env db1 l2).1, t1 ++ (processRefs env db1 l2).2.1,
         (processRefs env db1 l2).2.2)
      rw [hrw, ← h2]
      simp [List.append_assoc]

/-- C2 (amended): when a registered tip-update callback returns a negative
value for an entry reached by the scan, the operation aborts immediately —
the result, state and trace do not depend on the entries after it — but the
error it fails with is the same untagged `-1` (`generic`) that any store
failure produces, not the distinguished `GIT_EUSER` / Cancelled code. -/
theorem c2_callback_cancel_aborts (env : TipsEnv) (cb : String → Oid → Oid → Int)
    (db db1 : RefDb) (t1 : List Ev) (l1 l2 : List Pkt) (h : RemoteHead)
    (d : String) (a : Bool)
    (hcb : env.cb = some cb)
    (h1 : processRefs env db l1 = (db1, t1, Option.none))
    (hd : tipDest env h = DestCase.dest d a)
    (hodb : a = true → env.odb h.oid = true)
    (hne : (db1 d).getD zeroOid ≠ h.oid)
    (hfail : env.fail d = false)
    (hneg : cb d ((db1 d).getD zeroOid) h.oid < 0) :
    processRefs env db (l1 ++ Pkt.ref h :: l2) =
      ((updateStep env db1 (Pkt.ref h)).1,
       t1 ++ (updateStep env db1 (Pkt.ref h)).2.1, some GitErr.generic)
    ∧ (updateStep env db1 (Pkt.ref h)).2.2 = StepOut.abort GitErr.generic := by
  have hb : (a && !env.odb h.oid) = false := by
    cases a with
    | false => rfl
    | true => simp [hodb rfl]
  have hstep : (updateStep env db1 (Pkt.ref h)).2.2 = StepOut.abort GitErr.generic := by
    simp only [updateStep, hd, hb, Bool.false_eq_true, if_false]
    rw [if_neg hne]
    by_cases hsome : (db1 d).isSome = true
    · by_cases ha : a = true
      · simp [referenceCreateOid, hfail, hsome, ha, stepNotify, hcb, hneg]
      · simp [referenceCreateOid, hfail, hsome, ha, stepNotify, hcb, hneg]
    · simp [referenceCreateOid, hfail, hsome, stepNotify, hcb, hneg]
  refine ⟨?_, hstep⟩
  rw [processRefs_append_ok env l1 db db1 t1 h1 (Pkt.ref h :: l2)]
  simp only [processRefs]
  rcases hst : updateStep env db1 (Pkt.ref h) with ⟨db', evs, out⟩
  rw [hst] at hstep
  simp only at hstep
  subst hstep
  rfl

theorem c2_counterexample :
    (updateTips envNeg dbEmpty [Pkt.ref ⟨"refs/heads/m", 5⟩]).2.2 = some GitErr.generic
    ∧ (updateTips envNeg dbEmpty [Pkt.ref ⟨"refs/heads/m", 5⟩]).2.2 ≠ some GitErr.user :=
  ⟨by decide, by decide⟩

theorem c2_witness :
    processRefs envNeg dbEmpty
        ([] ++ Pkt.ref ⟨"refs/heads/m", 5⟩ :: [Pkt.ref ⟨"refs/heads/z", 9⟩]) =
      ((updateStep envNeg dbEmpty (Pkt.ref ⟨"refs/heads/m", 5⟩)).1,
       [] ++ (updateStep envNeg dbEmpty (Pkt.ref ⟨"refs/heads/m", 5⟩)).2.1,
       some GitErr.generic)
    ∧ (updateStep envNeg dbEmpty (Pkt.ref ⟨"refs/heads/m", 5⟩)).2.2 =
        StepOut.abort GitErr.generic :=
  c2_callback_cancel_aborts envNeg (fun _ _ _ => -1) dbEmpty dbEmpty [] []
    [Pkt.ref ⟨"refs/heads/z", 9⟩] ⟨"refs/heads/m", 5⟩ "refs/remotes/o/m" false
    rfl rfl (by decide) (by decide) (by decide) (by decide) (by decide)

theorem refHeads_cons_other (l : List Pkt) : refHeads (Pkt.other :: l) = refHeads l := by
  simp [refHeads]

theorem refHeads_cons_ref (h : RemoteHead) (l : List Pkt) :
    refHeads (Pkt.ref h :: l) = h :: refHeads l := by
  simp [refHeads]

theorem lsVisit_all_ok (cb : RemoteHead → Int) :
    ∀ l : List Pkt, (∀ h ∈ refHeads l, cb h = 0) →
      lsVisit cb l = (Option.none, refHeads l) := by
  intro l
  induction l with
  | nil => intro; simp [lsVisit, refHeads]
  | cons p rest ih =>
    intro hok
    cases p with
    | other =>
      rw [refHeads_cons_other] at hok ⊢
      simpa [lsVisit] using ih hok
    | ref h =>
      rw [refHeads_cons_ref] at hok ⊢
      have h0 : cb h = 0 := hok h (List.mem_cons_self h _)
      have hrest := ih fun h' hm => hok h' (List.mem_cons_of_mem h hm)
      simp [lsVisit, h0, hrest]

theorem lsVisit_abort (cb : RemoteHead → Int) (h : RemoteHead) (hne : cb h ≠ 0) :
    ∀ l1 l2, (∀ h' ∈ refHeads l1, cb h' = 0) →
      lsVisit cb (l1 ++ Pkt.ref h :: l2) = (some GitErr.user, refHeads l1 ++ [h]) := by
  intro l1
  induction l1 with
  | nil => intro l2 _; simp [lsVisit, hne, refHeads]
  | cons p rest ih =>
    intro l2 hok
    cases p with
    | other =>
      rw [refHeads_cons_other] at hok ⊢
      simpa [lsVisit] using ih l2 hok
    | ref h' =>
      rw [refHeads_cons_ref] at hok ⊢
      have h0 : cb h' = 0 := hok h' (List.mem_cons_self h' _)
      have hrest := ih l2 fun x hm => hok x (List.mem_cons_of_mem h' hm)
      simp [lsVisit, h0, hrest]

/-- C7: listing advertised refs fails with the "remote is not connected" error
— before any visitor invocation — whenever the transport is missing or not
connected; when connected, exactly the ref-kind packets are passed to the
visitor, in order, and a non-zero visitor return aborts the enumeration with
the distinguished `GIT_EUSER` (Cancelled) result, the remaining entries
unvisited. -/
theorem c7_ls_connection_and_cancel :
    (∀ cb, git_remote_ls Option.none cb = (some GitErr.notConnected, []))
    ∧ (∀ (t : Transport) cb, t.connected = false →
        git_remote_ls (some t) cb = (some GitErr.notConnected, []))
    ∧ (∀ (t : Transport) cb, t.connected = true → (∀ h ∈ refHeads t.refs, cb h = 0) →
        git_remote_ls (some t) cb = (Option.none, refHeads t.refs))
    ∧ (∀ (t : Transport) cb l1 h l2, t.connected = true →
        t.refs = l1 ++ Pkt.ref h :: l2 → (∀ h' ∈ refHeads l1, cb h' = 0) → cb h ≠ 0 →
        git_remote_ls (some t) cb = (some GitErr.user, refHeads l1 ++ [h])) := by
  refine ⟨fun cb => rfl, ?_, ?_, ?_⟩
  · intro t cb hc
    simp [git_remote_ls, hc]
  · intro t cb hc hok
    simp [git_remote_ls, hc]
    exact lsVisit_all_ok cb t.refs hok
  · intro t cb l1 h l2 hc hrefs hok hne
    simp [git_remote_ls, hc, hrefs]
    exact lsVisit_abort cb h hne l1 l2 hok

theorem c7_witness :
    git_remote_ls Option.none (fun _ => 0) = (some GitErr.notConnected, [])
    ∧ git_remote_ls (some ⟨false, [Pkt.ref ⟨"a", 1⟩]⟩) (fun _ => 0) =
        (some GitErr.notConnected, [])
    ∧ git_remote_ls (some ⟨true, [Pkt.other, Pkt.ref ⟨"a", 1⟩]⟩) (fun _ => 0) =
        (Option.none, refHeads [Pkt.other, Pkt.ref ⟨"a", 1⟩])
    ∧ git_remote_ls (some ⟨true, [Pkt.ref ⟨"a", 1⟩, Pkt.ref ⟨"b", 2⟩, Pkt.ref ⟨"c", 3⟩]⟩)
        (fun h => if h.name = "b" then 1 else 0) =
        (some GitErr.user, refHeads [Pkt.ref ⟨"a", 1⟩] ++ [⟨"b", 2⟩]) :=
  ⟨c7_ls_connection_and_cancel.1 (fun _ => 0),
   c7_ls_connection_and_cancel.2.1 ⟨false, [Pkt.ref ⟨"a", 1⟩]⟩ (fun _ => 0) rfl,
   c7_ls_connection_and_cancel.2.2.1 ⟨true, [Pkt.other, Pkt.ref ⟨"a", 1⟩]⟩ (fun _ => 0)
     rfl (by decide),
   c7_ls_connection_and_cancel.2.2.2 ⟨true, [Pkt.ref ⟨"a", 1⟩, Pkt.ref ⟨"b", 2⟩, Pkt.ref ⟨"c", 3⟩]⟩
     (fun h => if h.name = "b" then 1 else 0) [Pkt.ref ⟨"a", 1⟩] ⟨"b", 2⟩ [Pkt.ref ⟨"c", 3⟩]
     rfl rfl (by decide) (by decide)⟩

/-- C10: saving a remote whose name is absent (anonymous) or empty fails with
the invalid-name validation error before anything is written: the returned
configuration is the input one and the write trace is empty. -/
theorem c10_save_nameless_fails (r : Remote) (c : Cfg)
    (hn : r.name = Option.none ∨ r.name = some "") :
    git_remote_save r c = (some GitErr.invalidName, c, []) := by
  have hv : ensure_remote_name_is_valid r.name = false := by
    rcases hn with hn | hn <;> rw [hn] <;> rfl
  simp [git_remote_save, hv]

theorem c10_witness :
    git_remote_save ⟨Option.none, "http://x", Option.none, emptyRefspec, emptyRefspec,
        DownloadTags.auto⟩ [("a", "b")] =
      (some GitErr.invalidName, [("a", "b")], []) :=
  c10_save_nameless_fails _ _ (Or.inl rfl)

theorem chSplit_ne_nil (sep : Char) (l : List Char) : chSplit sep l ≠ [] := by
  induction l with
  | nil => simp [chSplit]
  | cons c rest ih =>
    simp only [chSplit]
    by_cases hc : c = sep
    · simp [hc]
    · simp only [hc, if_false]
      cases hs : chSplit sep rest with
      | nil => simp
      | cons g gs => simp

theorem chSplit_singleton (sep : Char) : ∀ (l d : List Char), chSplit sep l = [d] → l = d := by
  intro l
  induction l with
  | nil => intro d h; simp [chSplit] at h; rw [← h]
  | cons c rest ih =>
    intro d h
    simp only [chSplit] at h
    by_cases hc : c = sep
    · rw [if_pos hc] at h
      simp only [List.cons.injEq] at h
      exact absurd h.2 (chSplit_ne_nil sep rest)
    · rw [if_neg hc] at h
      cases hs : chSplit sep rest with
      | nil => exact absurd hs (chSplit_ne_nil sep rest)
      | cons g gs =>
        rw [hs] at h
        simp only [List.cons.injEq] at h
        obtain ⟨h1, h2⟩ := h
        have : rest = g := by
          apply ih
          rw [hs, h2]
        rw [← h1, this]

theorem chSplit_pair (sep : Char) : ∀ (l s d : List Char),
    chSplit sep l = [s, d] → l = s ++ sep :: d := by
  intro l
  induction l with
  | nil => intro s d h; simp [chSplit] at h
  | cons c rest ih =>
    intro s d h
    simp only [chSplit] at h
    by_cases hc : c = sep
    · rw [if_pos hc] at h
      simp only [List.cons.injEq] at h
      obtain ⟨h1, h2⟩ := h
      have := chSplit_singleton sep rest d (by rw [h2])
      rw [← h1, this, hc]
      rfl
    · rw [if_neg hc] at h
      cases hs : chSplit sep rest with
      | nil => exact absurd hs (chSplit_ne_nil sep rest)
      | cons g gs =>
        rw [hs] at h
        simp only [List.cons.injEq] at h
        obtain ⟨h1, h2⟩ := h
        have := ih g d (by rw [hs, h2])
        rw [← h1, this]
        rfl

theorem chSplit_no_sep (sep : Char) : ∀ (l part : List Char),
    part ∈ chSplit sep l → sep ∉ part := by
  intro l
  induction l with
  | nil => intro part hm; simp [chSplit] at hm; simp [hm]
  | cons c rest ih =>
    intro part hm
    simp only [chSplit] at hm
    by_cases hc : c = sep
    · rw [if_pos hc] at hm
      rcases List.mem_cons.mp hm with hm | hm
      · simp [hm]
      · exact ih part hm
    · rw [if_neg hc] at hm
      cases hs : chSplit sep rest with
      | nil => exact absurd hs (chSplit_ne_nil sep rest)
      | cons g gs =>
        rw [hs] at hm
        rcases List.mem_cons.mp hm with hm | hm
        · rw [hm]
          intro hsep
          rcases List.mem_cons.mp hsep with hsep | hsep
          · exact hc hsep.symm
          · exact ih g (by rw [hs]; exact List.mem_cons_self g gs) hsep
        · exact ih part (by rw [hs]; exact List.mem_cons_of_mem g hm)

theorem sep_split_unique (sep : Char) : ∀ (a a' b b' : List Char), sep ∉ a → sep ∉ a' →
    a ++ sep :: b = a' ++ sep :: b' → a = a' ∧ b = b' := by
  intro a
  induction a with
  | nil =>
    intro a' b b' _ ha' heq
    cases a' with
    | nil => simpa using heq
    | cons x xs =>
      simp only [List.nil_append, List.cons_append, List.cons.injEq] at heq
      exact absurd (by rw [heq.1]; exact List.mem_cons_self x xs) ha'
  | cons x xs ih =>
    intro a' b b' ha ha' heq
    cases a' with
    | nil =>
      simp only [List.cons_append, List.nil_append, List.cons.injEq] at heq
      exact absurd (by rw [← heq.1]; exact List.mem_cons_self x xs) ha
    | cons y ys =>
      simp only [List.cons_append, List.cons.injEq] at heq
      obtain ⟨hxy, heq2⟩ := heq
      have hxs : sep ∉ xs := fun hm => ha (List.mem_cons_of_mem x hm)
      have hys : sep ∉ ys := fun hm => ha' (List.mem_cons_of_mem y hm)
      obtain ⟨h1, h2⟩ := ih ys b b' hxs hys heq2
      exact ⟨by rw [hxy, h1], h2⟩

theorem strKey_ne (p s1 s2 : String) (hne : s1.data ≠ s2.data)
    (k1 k2 : String) (h1 : k1.data = p.data ++ s1.data) (h2 : k2.data = p.data ++ s2.data) :
    k1 ≠ k2 := by
  intro h
  apply hne
  have hd := congrArg String.data h
  rw [h1, h2] at hd
  exact List.append_cancel_left hd

theorem find?_map_set (k v : String) : ∀ c : Cfg,
    ((c.map fun kv => if kv.1 = k then (k, v) else kv).find? fun kv => kv.1 == k) =
      ((c.find? fun kv => kv.1 == k).map fun _ => (k, v)) := by
  intro c
  induction c with
  | nil => rfl
  | cons kv rest ih =>
    by_cases hk : kv.1 = k
    · simp [List.find?_cons, hk]
    · simp [List.find?_cons, hk, ih]

theorem find?_map_otherKey (k k' v : String) (hne : k' ≠ k) : ∀ c : Cfg,
    ((c.map fun kv => if kv.1 = k' then (k', v) else kv).find? fun kv => kv.1 == k) =
      (c.find? fun kv => kv.1 == k) := by
  intro c
  induction c with
  | nil => rfl
  | cons kv rest ih =>
    simp only [List.map_cons, List.find?_cons]
    by_cases hk : kv.1 = k'
    · rw [if_pos hk]
      have h1 : (k' == k) = false := by simp [hne]
      have h2 : (kv.1 == k) = false := by simp [hk, hne]
      simp only [h1, h2, ih]
    · rw [if_neg hk]
      cases hp : (kv.1 == k) with
      | true => simp [hp]
      | false => simp only [hp, ih]

theorem cfgGet_set_self (c : Cfg) (k v : String) : cfgGet (cfgSet c k v) k = some v := by
  unfold cfgSet cfgGet
  by_cases ha : (c.any fun kv => kv.1 == k) = true
  · rw [if_pos ha, find?_map_set]
    cases hy : (c.find? fun kv => kv.1 == k) with
    | none =>
      rw [List.find?_eq_none] at hy
      obtain ⟨x, hx, hpx⟩ := List.any_eq_true.mp ha
      exact absurd hpx (by simpa using hy x hx)
    | some y => simp
  · rw [if_neg ha, List.find?_append]
    have hnone : (c.find? fun kv => kv.1 == k) = none := by
      rw [List.find?_eq_none]
      intro x hx hpx
      exact ha (List.any_eq_true.mpr ⟨x, hx, hpx⟩)
    rw [hnone]
    simp [List.find?_cons]

theorem cfgGet_set_other (c : Cfg) (k k' v : String) (hne : k' ≠ k) :
    cfgGet (cfgSet c k' v) k = cfgGet c k := by
  unfold cfgSet cfgGet
  by_cases ha : (c.any fun kv => kv.1 == k') = true
  · rw [if_pos ha, find?_map_otherKey k k' v hne]
  · rw [if_neg ha, List.find?_append]
    have h1 : (k' == k) = false := by simp [hne]
    simp only [List.find?_cons, h1, List.find?_nil, Option.or_none]

theorem find?_filter_keep {p q : String × String → Bool}
    (himp : ∀ x, p x = true → q x = true) : ∀ l : Cfg,
    ((l.filter q).find? p) = l.find? p := by
  intro l
  induction l with
  | nil => rfl
  | cons kv rest ih =>
    by_cases hq : q kv = true
    · simp only [List.filter_cons, hq, if_true, List.find?_cons]
      cases hp : p kv with
      | true => rfl
      | false => exact ih
    · have hp : p kv = false := by
        cases hpv : p kv with
        | true => exact absurd (himp kv hpv) hq
        | false => rfl
      simp only [List.filter_cons, hq, if_false, List.find?_cons, hp, Bool.false_eq_true]
      exact ih

theorem cfgGet_del_other (c : Cfg) (k k' : String) (hne : k' ≠ k) :
    cfgGet (cfgDel c k') k = cfgGet c k := by
  unfold cfgDel cfgGet
  rw [find?_filter_keep]
  intro x hx
  simp only [beq_iff_eq] at hx
  simp only [bne_iff_ne, ne_eq, hx]
  exact fun h => hne h.symm


theorem default_fetch_parse_step (name : String) :
    refspecParse ("+refs/heads/*:refs/remotes/" ++ name ++ "/*") =
      refspecParseRest ("refs/heads/*".data ++
        ':' :: ("refs/remotes/".data ++ name.data ++ "/*".data)) true := rfl

/-- Parsing the default fetch text built by `git_remote_add`, when it
succeeds, yields exactly the forced refspec
`+refs/heads/*:refs/remotes/<name>/*`. -/
theorem refspecParse_default (name : String) (rs : Refspec)
    (hp : refspecParse ("+refs/heads/*:refs/remotes/" ++ name ++ "/*") = some rs) :
    rs = ⟨some "refs/heads/*", some ("refs/remotes/" ++ name ++ "/*"), true⟩ := by
  rw [default_fetch_parse_step name] at hp
  unfold refspecParseRest at hp
  cases hsp : chSplit ':'
      ("refs/heads/*".data ++ ':' :: ("refs/remotes/".data ++ name.data ++ "/*".data)) with
  | nil => exact absurd hsp (chSplit_ne_nil _ _)
  | cons s tail =>
    cases tail with
    | nil => rw [hsp] at hp; simp at hp
    | cons d tail2 =>
      cases tail2 with
      | cons x tail3 => rw [hsp] at hp; simp at hp
      | nil =>
        rw [hsp] at hp
        have hjoin := chSplit_pair ':' _ s d hsp
        have hnosep : ':' ∉ s :=
          chSplit_no_sep ':' _ s (by rw [hsp]; exact List.mem_cons_self s [d])
        have hA : (':' : Char) ∉ "refs/heads/*".data := by decide
        obtain ⟨hseq, hdeq⟩ := sep_split_unique ':' "refs/heads/*".data s
          ("refs/remotes/".data ++ name.data ++ "/*".data) d hA hnosep hjoin
        have hp2 : (if (validRefPattern s && validRefPattern d &&
            (chSplit '*' s).length == (chSplit '*' d).length &&
            decide ((chSplit '*' s).length ≤ 2)) = true then
            some (⟨some ⟨s⟩, some ⟨d⟩, true⟩ : Refspec) else none) = some rs := hp
        by_cases hg : (validRefPattern s && validRefPattern d &&
            (chSplit '*' s).length == (chSplit '*' d).length &&
            decide ((chSplit '*' s).length ≤ 2)) = true
        · rw [if_pos hg] at hp2
          have hrs := Option.some.inj hp2
          rw [← hrs, ← hseq, ← hdeq]
          have h2 : (⟨"refs/remotes/".data ++ name.data ++ "/*".data⟩ : String) =
              "refs/remotes/" ++ name ++ "/*" := by
            have hdd : ("refs/remotes/" ++ name ++ "/*").data =
                "refs/remotes/".data ++ name.data ++ "/*".data := by
              simp [String.data_append]
            rw [← hdd]
          rw [h2]
        · rw [if_neg hg] at hp2
          exact absurd hp2 (by simp)

theorem save_mem_url (r : Remote) (c : Cfg)
    (hv : ensure_remote_name_is_valid r.name = true) :
    ROp.set ("remote." ++ r.name.getD "" ++ ".url") r.url ∈ (git_remote_save r c).2.2 := by
  simp [git_remote_save, hv]

/-- C9: adding a remote by (name, url) constructs it with the forced default
fetch refspec `+refs/heads/*:refs/remotes/<name>/*` and immediately persists
it via save (the url write appears in the write trace); on a construction or
save failure no remote is returned (the partial object was freed) and the
error surfaces. -/
theorem c9_add_default_refspec (c : Cfg) (name url : String) :
    ((git_remote_add c name url).1 = Option.none →
      (git_remote_add c name url).2.1 =
        some ⟨some name, url, Option.none,
              ⟨some "refs/heads/*", some ("refs/remotes/" ++ name ++ "/*"), true⟩,
              emptyRefspec, DownloadTags.unset⟩
      ∧ ROp.set ("remote." ++ name ++ ".url") url ∈ (git_remote_add c name url).2.2.2)
    ∧ (∀ e, (git_remote_add c name url).1 = some e →
        (git_remote_add c name url).2.1 = Option.none) := by
  unfold git_remote_add git_remote_new
  cases hp : refspecParse ("+refs/heads/*:refs/remotes/" ++ name ++ "/*") with
  | none => simp [hp]
  | some rs =>
    have hrs := refspecParse_default name rs hp
    subst hrs
    simp only [hp, Option.isNone_some, Bool.false_eq_true, if_false]
    cases hres : (git_remote_save
        ⟨some name, url, Option.none,
         ⟨some "refs/heads/*", some ("refs/remotes/" ++ name ++ "/*"), true⟩,
         emptyRefspec, DownloadTags.unset⟩ c).1 with
    | some e => simp [hres]
    | none =>
      simp only [hres]
      refine ⟨fun _ => ⟨by trivial, ?_⟩, fun e he => absurd he (by simp)⟩
      have hv : ensure_remote_name_is_valid (some name) = true := by
        by_contra hv
        rw [Bool.not_eq_true] at hv
        rw [show (git_remote_save
            ⟨some name, url, Option.none,
             ⟨some "refs/heads/*", some ("refs/remotes/" ++ name ++ "/*"), true⟩,
             emptyRefspec, DownloadTags.unset⟩ c) =
          (some GitErr.invalidName, c, []) from by simp [git_remote_save, hv]] at hres
        simp at hres
      exact save_mem_url
        ⟨some name, url, Option.none,
         ⟨some "refs/heads/*", some ("refs/remotes/" ++ name ++ "/*"), true⟩,
         emptyRefspec, DownloadTags.unset⟩ c hv

theorem c9_witness :
    ((git_remote_add [] "origin" "http://x").1 = Option.none →
      (git_remote_add [] "origin" "http://x").2.1 =
        some ⟨some "origin", "http://x", Option.none,
              ⟨some "refs/heads/*", some ("refs/remotes/" ++ "origin" ++ "/*"), true⟩,
              emptyRefspec, DownloadTags.unset⟩
      ∧ ROp.set ("remote." ++ "origin" ++ ".url") "http://x" ∈
          (git_remote_add [] "origin" "http://x").2.2.2)
    ∧ (∀ e, (git_remote_add [] "origin" "http://x").1 = some e →
        (git_remote_add [] "origin" "http://x").2.1 = Option.none) :=
  c9_add_default_refspec [] "origin" "http://x"

theorem update_config_refspec_ops (c : Cfg) (n : String) (rs : Refspec) (isF : Bool)
    (op : ROp) (hm : op ∈ (update_config_refspec c n rs isF).2) :
    op = ROp.set ("remote." ++ n ++ "." ++ (if isF then "fetch" else "push"))
      (refspecSerialize rs) := by
  unfold update_config_refspec at hm
  split at hm
  · simp at hm
  · simp at hm
    exact hm

theorem save_ops_shape (r : Remote) (c : Cfg) (op : ROp)
    (hm : op ∈ (git_remote_save r c).2.2) :
    (∃ v suf, suf ∈ ([".url", ".pushurl", ".fetch", ".push", ".tagopt"] : List String) ∧
      op = ROp.set ("remote." ++ r.name.getD "" ++ suf) v)
    ∨ (∃ suf, suf ∈ ([".pushurl", ".tagopt"] : List String) ∧
      op = ROp.del ("remote." ++ r.name.getD "" ++ suf)) := by
  by_cases hv : ensure_remote_name_is_valid r.name = true
  case neg =>
    have hv2 : ensure_remote_name_is_valid r.name = false := by
      rwa [Bool.not_eq_true] at hv
    simp [git_remote_save, hv2] at hm
  case pos =>
    simp only [git_remote_save, hv, Bool.not_true, Bool.false_eq_true, if_false,
      List.mem_append] at hm
    have hfetch : "remote." ++ r.name.getD "" ++ "." ++ "fetch" =
        "remote." ++ r.name.getD "" ++ ".fetch" := by
      rw [String.append_assoc]; rfl
    have hpush : "remote." ++ r.name.getD "" ++ "." ++ "push" =
        "remote." ++ r.name.getD "" ++ ".push" := by
      rw [String.append_assoc]; rfl
    rcases hm with ((((h | h) | h) | h) | h)
    · simp only [List.mem_singleton] at h
      exact Or.inl ⟨r.url, ".url", by simp, h⟩
    · split at h
      · simp only [List.mem_singleton] at h
        exact Or.inl ⟨_, ".pushurl", by simp, h⟩
      · simp only [List.mem_singleton] at h
        exact Or.inr ⟨".pushurl", by simp, h⟩
    · have h2 := update_config_refspec_ops _ _ _ _ op h
      rw [if_pos rfl, hfetch] at h2
      exact Or.inl ⟨refspecSerialize r.fetch, ".fetch", by simp, h2⟩
    · have h2 := update_config_refspec_ops _ _ _ _ op h
      rw [if_neg (by simp), hpush] at h2
      exact Or.inl ⟨refspecSerialize r.push, ".push", by simp, h2⟩
    · split at h
      · simp only [List.mem_singleton] at h
        exact Or.inl ⟨"--tags", ".tagopt", by simp, h⟩
      · split at h
        · simp only [List.mem_singleton] at h
          exact Or.inl ⟨"--no-tags", ".tagopt", by simp, h⟩
        · split at h
          · simp only [List.mem_singleton] at h
            exact Or.inr ⟨".tagopt", by simp, h⟩
          · simp at h

theorem doesnot_exist_of_no_url (c : Cfg) (name : String)
    (h : cfgGet c ("remote." ++ name ++ ".url") = Option.none) :
    ensure_remote_doesnot_exist c name = Option.none := by
  unfold ensure_remote_doesnot_exist git_remote_load
  rw [h]

theorem c3_counterexample :
    (git_remote_rename remoteAnon ⟨[], []⟩ "bar" cbZero).2.2.2 = Option.none
    ∧ (git_remote_rename remoteAnon ⟨[], []⟩ "bar" cbZero).1.fetch.dst ≠
        some "refs/remotes/bar/*"
    ∧ (git_remote_rename remoteAnon ⟨[], []⟩ "bar" cbZero).1.fetch.dst =
        some "refs/remotes/foo/*" :=
  ⟨by decide, by decide, by decide⟩

/-- C3 (amended): renaming an anonymous remote to a valid, unused name leaves
the in-memory fetch refspec untouched and instead invokes the
problematic-refspec callback once with its serialized text; it then sets the
in-memory name and saves once (the operation trace is exactly that callback
invocation followed by the single save's writes); it never touches any config
key or reference under an old name — no section rename, no ref renames, the
reference store is unchanged, and every config write or delete is a
`remote.<newname>` key of the save. -/
theorem c3_anonymous_rename (r : Remote) (st : RepoState) (newName : String)
    (cb : String → Int)
    (hname : r.name = Option.none)
    (hunused : cfgGet st.cfg ("remote." ++ newName ++ ".url") = Option.none)
    (hvalid : ensure_remote_name_is_valid (some newName) = true)
    (hfetch : ¬(r.fetch.src = Option.none ∧ r.fetch.dst = Option.none))
    (hcb : ¬(cb (refspecSerialize r.fetch) < 0)) :
    (git_remote_rename r st newName cb).1.fetch = r.fetch
    ∧ (git_remote_rename r st newName cb).1.name = some newName
    ∧ (git_remote_rename r st newName cb).2.2.1 =
        ROp.problemCb (refspecSerialize r.fetch) ::
          (git_remote_save { r with name := some newName } st.cfg).2.2
    ∧ (git_remote_rename r st newName cb).2.1.refs = st.refs
    ∧ (git_remote_rename r st newName cb).2.2.2 = Option.none
    ∧ (∀ o n2, ROp.renameSection o n2 ∉ (git_remote_rename r st newName cb).2.2.1)
    ∧ (∀ o n2, ROp.refRename o n2 ∉ (git_remote_rename r st newName cb).2.2.1)
    ∧ (∀ k v, ROp.set k v ∈ (git_remote_rename r st newName cb).2.2.1 →
        ∃ suf, suf ∈ ([".url", ".pushurl", ".fetch", ".push", ".tagopt"] : List String) ∧
          k = "remote." ++ newName ++ suf)
    ∧ (∀ k, ROp.del k ∈ (git_remote_rename r st newName cb).2.2.1 →
        ∃ suf, suf ∈ ([".pushurl", ".tagopt"] : List String) ∧
          k = "remote." ++ newName ++ suf) := by
  have hde := doesnot_exist_of_no_url st.cfg newName hunused
  have hcond : (r.fetch.src = Option.none && r.fetch.dst = Option.none) = false := by
    by_cases h1 : r.fetch.src = Option.none <;> by_cases h2 : r.fetch.dst = Option.none <;>
      simp [h1, h2]
    exact absurd ⟨h1, h2⟩ hfetch
  have hout : git_remote_rename r st newName cb =
      ({ r with name := some newName },
       { st with cfg := (git_remote_save { r with name := some newName } st.cfg).2.1 },
       ROp.problemCb (refspecSerialize r.fetch) ::
         (git_remote_save { r with name := some newName } st.cfg).2.2,
       (git_remote_save { r with name := some newName } st.cfg).1) := by
    simp only [git_remote_rename, hde, hvalid, Bool.not_true, Bool.false_eq_true, if_false,
      hname, rename_fetch_refspecs, hcond, if_neg hcb, List.singleton_append]
  have hsave1 : (git_remote_save { r with name := some newName } st.cfg).1 = Option.none := by
    simp [git_remote_save, hvalid]
  have hshape := fun op hm =>
    save_ops_shape { r with name := some newName } st.cfg op hm
  rw [hout]
  refine ⟨rfl, rfl, rfl, rfl, hsave1, ?_, ?_, ?_, ?_⟩
  · intro o n2 hm
    rcases List.mem_cons.mp hm with hm | hm
    · exact absurd hm (by simp)
    · rcases hshape _ hm with ⟨v, suf, _, heq⟩ | ⟨suf, _, heq⟩ <;> simp at heq
  · intro o n2 hm
    rcases List.mem_cons.mp hm with hm | hm
    · exact absurd hm (by simp)
    · rcases hshape _ hm with ⟨v, suf, _, heq⟩ | ⟨suf, _, heq⟩ <;> simp at heq
  · intro k v hm
    rcases List.mem_cons.mp hm with hm | hm
    · exact absurd hm (by simp)
    · rcases hshape _ hm with ⟨v2, suf, hsuf, heq⟩ | ⟨suf, hsuf, heq⟩
      · simp only [ROp.set.injEq] at heq
        exact ⟨suf, hsuf, heq.1⟩
      · simp at heq
  · intro k hm
    rcases List.mem_cons.mp hm with hm | hm
    · exact absurd hm (by simp)
    · rcases hshape _ hm with ⟨v2, suf, hsuf, heq⟩ | ⟨suf, hsuf, heq⟩
      · simp at heq
      · simp only [ROp.del.injEq] at heq
        exact ⟨suf, hsuf, heq⟩

theorem c3_witness :
    (git_remote_rename remoteAnon ⟨[("x", "y")], []⟩ "bar" cbZero).1.fetch = remoteAnon.fetch
    ∧ (git_remote_rename remoteAnon ⟨[("x", "y")], []⟩ "bar" cbZero).1.name = some "bar"
    ∧ (git_remote_rename remoteAnon ⟨[("x", "y")], []⟩ "bar" cbZero).2.2.1 =
        ROp.problemCb (refspecSerialize remoteAnon.fetch) ::
          (git_remote_save { remoteAnon with name := some "bar" } [("x", "y")]).2.2
    ∧ (git_remote_rename remoteAnon ⟨[("x", "y")], []⟩ "bar" cbZero).2.1.refs = []
    ∧ (git_remote_rename remoteAnon ⟨[("x", "y")], []⟩ "bar" cbZero).2.2.2 = Option.none
    ∧ (∀ o n2, ROp.renameSection o n2 ∉
        (git_remote_rename remoteAnon ⟨[("x", "y")], []⟩ "bar" cbZero).2.2.1)
    ∧ (∀ o n2, ROp.refRename o n2 ∉
        (git_remote_rename remoteAnon ⟨[("x", "y")], []⟩ "bar" cbZero).2.2.1)
    ∧ (∀ k v, ROp.set k v ∈
        (git_remote_rename remoteAnon ⟨[("x", "y")], []⟩ "bar" cbZero).2.2.1 →
        ∃ suf, suf ∈ ([".url", ".pushurl", ".fetch", ".push", ".tagopt"] : List String) ∧
          k = "remote." ++ "bar" ++ suf)
    ∧ (∀ k, ROp.del k ∈
        (git_remote_rename remoteAnon ⟨[("x", "y")], []⟩ "bar" cbZero).2.2.1 →
        ∃ suf, suf ∈ ([".pushurl", ".tagopt"] : List String) ∧
          k = "remote." ++ "bar" ++ suf) :=
  c3_anonymous_rename remoteAnon ⟨[("x", "y")], []⟩ "bar" cbZero
    rfl (by decide) (by decide) (by decide) (by decide)

theorem update_branch_ops_shape (c : Cfg) (o n : String) (op : ROp)
    (hm : op ∈ (update_branch_remote_config_entry c o n).2) :
    ∃ k, op = ROp.set k n ∧ keyIsBranchRemote k = true := by
  unfold update_branch_remote_config_entry at hm
  simp only [List.mem_map, List.mem_filter] at hm
  obtain ⟨kv, ⟨_, hf⟩, hop⟩ := hm
  rw [Bool.and_eq_true] at hf
  exact ⟨kv.1, hop.symm, hf.1⟩

theorem renameRefsGo_ops_shape (o n : String) : ∀ (names : List String) (refs : RefList)
    (op : ROp), op ∈ (renameRefsGo o n refs names).2.1 → ∃ a b, op = ROp.refRename a b := by
  intro names
  induction names with
  | nil => intro refs op hm; simp [renameRefsGo] at hm
  | cons x rest ih =>
    intro refs op hm
    unfold renameRefsGo at hm
    rcases hr : refsRename refs x (rename_one_ref_newname o n x) with he | refs1
    · rw [hr] at hm; simp at hm
    · rw [hr] at hm
      simp only [List.mem_cons] at hm
      rcases hm with hm | hm
      · exact ⟨x, rename_one_ref_newname o n x, hm⟩
      · exact ih refs1 op hm

theorem rename_refs_ops_shape (refs : RefList) (o n : String) (op : ROp)
    (hm : op ∈ (rename_remote_references refs o n).2.1) : ∃ a b, op = ROp.refRename a b := by
  unfold rename_remote_references at hm
  exact renameRefsGo_ops_shape o n _ refs op hm

theorem keyIsBranchRemote_remoteKey (x y : String) :
    keyIsBranchRemote ("remote." ++ x ++ y) = false := by
  unfold keyIsBranchRemote
  rw [show (("remote." ++ x) ++ y).data = 'r' :: ("emote.".data ++ x.data ++ y.data) from rfl,
    show "branch.".data = 'b' :: "ranch.".data from rfl]
  have hbr : (('b' : Char) == 'r') = false := by decide
  simp [chHasPref, hbr]

/-- C8: renaming a persisted remote whose serialized fetch refspec does not
contain the literal `":refs/remotes/<old>/"` marker invokes the
problematic-refspec callback exactly once with the serialized text, leaves
the fetch refspec unchanged in memory and never writes `remote.<new>.fetch`,
and the rename completes successfully (updating the in-memory name) unless
the callback returns a negative value, in which case the distinguished
`GIT_EUSER` result surfaces. -/
theorem c8_nonstandard_refspec_callback (r : Remote) (st : RepoState) (newName : String)
    (cb : String → Int) (oldName : String)
    (hname : r.name = some oldName)
    (hunused : cfgGet st.cfg ("remote." ++ newName ++ ".url") = Option.none)
    (hvalid : ensure_remote_name_is_valid (some newName) = true)
    (hfne : ¬(r.fetch.src = Option.none ∧ r.fetch.dst = Option.none))
    (hnostd : chFindSub (":refs/remotes/" ++ oldName ++ "/").data
        (refspecSerialize r.fetch).data = Option.none)
    (hrefs : (rename_remote_references st.refs oldName newName).2.2 = Option.none) :
    ((git_remote_rename r st newName cb).2.2.1.filter isProblemCb) =
      [ROp.problemCb (refspecSerialize r.fetch)]
    ∧ (git_remote_rename r st newName cb).1.fetch = r.fetch
    ∧ (∀ v, ROp.set ("remote." ++ newName ++ ".fetch") v ∉
        (git_remote_rename r st newName cb).2.2.1)
    ∧ (git_remote_rename r st newName cb).2.2.2 =
        (if cb (refspecSerialize r.fetch) < 0 then some GitErr.user else Option.none)
    ∧ (¬(cb (refspecSerialize r.fetch) < 0) →
        (git_remote_rename r st newName cb).1.name = some newName) := by
  have hde := doesnot_exist_of_no_url st.cfg newName hunused
  have hcond : (r.fetch.src = Option.none && r.fetch.dst = Option.none) = false := by
    by_cases h1 : r.fetch.src = Option.none <;> by_cases h2 : r.fetch.dst = Option.none <;>
      simp [h1, h2]
    exact absurd ⟨h1, h2⟩ hfne
  have hops_filter : ∀ (tail : List ROp), tail = [ROp.problemCb (refspecSerialize r.fetch)] →
      (((rename_remote_config_section st.cfg oldName newName).2 ++
        (update_branch_remote_config_entry
          (rename_remote_config_section st.cfg oldName newName).1 oldName newName).2 ++
        (rename_remote_references st.refs oldName newName).2.1 ++ tail).filter isProblemCb) =
      [ROp.problemCb (refspecSerialize r.fetch)] := by
    intro tail htail
    subst htail
    rw [List.filter_append, List.filter_append, List.filter_append]
    have hA : ((rename_remote_config_section st.cfg oldName newName).2.filter isProblemCb)
        = [] := by
      simp [rename_remote_config_section, isProblemCb]
    have hB : ((update_branch_remote_config_entry
        (rename_remote_config_section st.cfg oldName newName).1 oldName
        newName).2.filter isProblemCb) = [] := by
      rw [List.filter_eq_nil_iff]
      intro op hm
      obtain ⟨k, hop, -⟩ := update_branch_ops_shape _ _ _ op hm
      rw [hop]
      simp [isProblemCb]
    have hC : ((rename_remote_references st.refs oldName newName).2.1.filter isProblemCb)
        = [] := by
      rw [List.filter_eq_nil_iff]
      intro op hm
      obtain ⟨a, b, hop⟩ := rename_refs_ops_shape st.refs oldName newName op hm
      rw [hop]
      simp [isProblemCb]
    rw [hA, hB, hC]
    simp [isProblemCb]
  have hops_nofetch : ∀ (op : ROp),
      op ∈ ((rename_remote_config_section st.cfg oldName newName).2 ++
        (update_branch_remote_config_entry
          (rename_remote_config_section st.cfg oldName newName).1 oldName newName).2 ++
        (rename_remote_references st.refs oldName newName).2.1 ++
        [ROp.problemCb (refspecSerialize r.fetch)]) →
      ∀ v, op ≠ ROp.set ("remote." ++ newName ++ ".fetch") v := by
    intro op hm v
    simp only [List.mem_append] at hm
    rcases hm with ((hm | hm) | hm) | hm
    · simp only [rename_remote_config_section, List.mem_singleton] at hm
      rw [hm]
      simp
    · obtain ⟨k, hop, hkb⟩ := update_branch_ops_shape _ _ _ op hm
      rw [hop]
      intro he
      simp only [ROp.set.injEq] at he
      rw [he.1] at hkb
      rw [keyIsBranchRemote_remoteKey newName ".fetch"] at hkb
      exact absurd hkb (by simp)
    · obtain ⟨a, b, hop⟩ := rename_refs_ops_shape st.refs oldName newName op hm
      rw [hop]
      simp
    · simp only [List.mem_singleton] at hm
      rw [hm]
      simp
  by_cases hcb : cb (refspecSerialize r.fetch) < 0
  · have hout : git_remote_rename r st newName cb =
        (r, ⟨(update_branch_remote_config_entry
            (rename_remote_config_section st.cfg oldName newName).1 oldName newName).1,
          (rename_remote_references st.refs oldName newName).1⟩,
         (rename_remote_config_section st.cfg oldName newName).2 ++
           (update_branch_remote_config_entry
             (rename_remote_config_section st.cfg oldName newName).1 oldName newName).2 ++
           (rename_remote_references st.refs oldName newName).2.1 ++
           [ROp.problemCb (refspecSerialize r.fetch)],
         some GitErr.user) := by
      simp only [git_remote_rename, hde, hvalid, Bool.not_true, Bool.false_eq_true, if_false,
        hname, hrefs, rename_fetch_refspecs, hcond, hnostd, if_pos hcb]
    rw [hout]
    exact ⟨hops_filter _ rfl, rfl,
      fun v hm => hops_nofetch _ hm v rfl,
      by rw [if_pos hcb],
      fun h => absurd hcb h⟩
  · have hout : git_remote_rename r st newName cb =
        ({ r with name := some newName },
         ⟨(update_branch_remote_config_entry
            (rename_remote_config_section st.cfg oldName newName).1 oldName newName).1,
          (rename_remote_references st.refs oldName newName).1⟩,
         (rename_remote_config_section st.cfg oldName newName).2 ++
           (update_branch_remote_config_entry
             (rename_remote_config_section st.cfg oldName newName).1 oldName newName).2 ++
           (rename_remote_references st.refs oldName newName).2.1 ++
           [ROp.problemCb (refspecSerialize r.fetch)],
         Option.none) := by
      simp only [git_remote_rename, hde, hvalid, Bool.not_true, Bool.false_eq_true, if_false,
        hname, hrefs, rename_fetch_refspecs, hcond, hnostd, if_neg hcb]
    rw [hout]
    exact ⟨hops_filter _ rfl, rfl,
      fun v hm => hops_nofetch _ hm v rfl,
      by rw [if_neg hcb],
      fun _ => rfl⟩

theorem c8_witness :
    ((git_remote_rename remoteCustom ⟨cfgCustom, []⟩ "neworigin" cbZero).2.2.1.filter
        isProblemCb) = [ROp.problemCb (refspecSerialize remoteCustom.fetch)]
    ∧ (git_remote_rename remoteCustom ⟨cfgCustom, []⟩ "neworigin" cbZero).1.fetch =
        remoteCustom.fetch
    ∧ (∀ v, ROp.set ("remote." ++ "neworigin" ++ ".fetch") v ∉
        (git_remote_rename remoteCustom ⟨cfgCustom, []⟩ "neworigin" cbZero).2.2.1)
    ∧ (git_remote_rename remoteCustom ⟨cfgCustom, []⟩ "neworigin" cbZero).2.2.2 =
        (if cbZero (refspecSerialize remoteCustom.fetch) < 0 then some GitErr.user
         else Option.none)
    ∧ (¬(cbZero (refspecSerialize remoteCustom.fetch) < 0) →
        (git_remote_rename remoteCustom ⟨cfgCustom, []⟩ "neworigin" cbZero).1.name =
          some "neworigin") :=
  c8_nonstandard_refspec_callback remoteCustom ⟨cfgCustom, []⟩ "neworigin" cbZero "origin"
    rfl (by decide) (by decide) (by decide) (by decide) (by decide)

theorem updateStep_frame (env : TipsEnv) (db : RefDb) (p : Pkt) (n : String)
    (hn : ∀ d o, pktEff env p = some (d, o) → d ≠ n) :
    (updateStep env db p).1 n = db n := by
  cases p with
  | other => rfl
  | ref h =>
    cases hd : tipDest env h with
    | skip => rw [updateStep_skip env db h hd]
    | abortT => simp [updateStep, hd]
    | dest d a =>
      by_cases hb : (a && !env.odb h.oid) = true
      · simp [updateStep, hd, hb]
      · rw [Bool.not_eq_true] at hb
        have hne : d ≠ n := hn d h.oid (by simp [pktEff, effDest, hd, hb])
        simp only [updateStep, hd, hb, Bool.false_eq_true, if_false]
        by_cases heq : ((db d).getD zeroOid) = h.oid
        · simp [heq]
        · rw [if_neg heq]
          unfold referenceCreateOid
          by_cases hf : env.fail d = true
          · simp [hf]
          · by_cases hsa : (db d).isSome = true ∧ a = true
            · simp [hf, hsa.1, hsa.2, stepNotify_fst]
            · simp only [hf, Bool.false_eq_true, if_false]
              rw [if_neg (by simpa [Bool.and_eq_true, Bool.not_not] using hsa)]
              show (stepNotify env (fun m => if m = d then some h.oid else db m)
                [Ev.create d h.oid (!a) true] d ((db d).getD zeroOid) h.oid).1 n = db n
              rw [stepNotify_fst]
              show (if n = d then some h.oid else db n) = db n
              rw [if_neg (fun hh => hne hh.symm)]

theorem processRefs_frame (env : TipsEnv) (n : String) :
    ∀ (l : List Pkt) (db : RefDb),
      (∀ p ∈ l, ∀ d o, pktEff env p = some (d, o) → d ≠ n) →
      (processRefs env db l).1 n = db n := by
  intro l
  induction l with
  | nil => intro db _; rfl
  | cons p rest ih =>
    intro db hn
    simp only [processRefs]
    cases hout : (updateStep env db p).2.2 with
    | abort e =>
      exact updateStep_frame env db p n (hn p (List.mem_cons_self p rest))
    | cont =>
      have h1 := updateStep_frame env db p n (hn p (List.mem_cons_self p rest))
      have h2 := ih (updateStep env db p).1
        (fun q hq => hn q (List.mem_cons_of_mem p hq))
      rw [h2, h1]

theorem processRefs_no_abortT (env : TipsEnv) :
    ∀ (l : List Pkt) (db : RefDb),
      (processRefs env db l).2.2 = Option.none →
      ∀ h, Pkt.ref h ∈ l → tipDest env h ≠ DestCase.abortT := by
  intro l
  induction l with
  | nil => intro db _ h hm; simp at hm
  | cons p rest ih =>
    intro db hres h hm
    simp only [processRefs] at hres
    cases hout : (updateStep env db p).2.2 with
    | abort e => rw [hout] at hres; simp at hres
    | cont =>
      rw [hout] at hres
      simp only at hres
      rcases List.mem_cons.mp hm with hm | hm
      · intro hd
        rw [← hm] at hout
        rw [show updateStep env db (Pkt.ref h) = (db, [], StepOut.abort GitErr.generic) from
          by simp [updateStep, hd]] at hout
        simp at hout
      · exact ih (updateStep env db p).1 hres h hm

theorem stepNotify_cases (env : TipsEnv) (db : RefDb) (evs : List Ev) (r : String)
    (o1 o2 : Oid) (db' : RefDb) (evs' : List Ev)
    (h : stepNotify env db evs r o1 o2 = (db', evs', StepOut.cont)) :
    db' = db ∧ ∀ x ∈ evs, x ∈ evs' := by
  unfold stepNotify at h
  cases hc : env.cb with
  | none =>
    rw [hc] at h
    have h2 : (db, evs, StepOut.cont) = (db', evs', StepOut.cont) := h
    simp only [Prod.mk.injEq] at h2
    exact ⟨h2.1.symm, fun x hx => h2.2.1 ▸ hx⟩
  | some cb =>
    rw [hc] at h
    have h2 : (if cb r o1 o2 < 0 then
        (db, evs ++ [Ev.notify r o1 o2], StepOut.abort GitErr.generic)
      else (db, evs ++ [Ev.notify r o1 o2], StepOut.cont)) = (db', evs', StepOut.cont) := h
    by_cases hcb : cb r o1 o2 < 0
    · rw [if_pos hcb] at h2
      simp at h2
    · rw [if_neg hcb] at h2
      simp only [Prod.mk.injEq] at h2
      refine ⟨h2.1.symm, fun x hx => ?_⟩
      rw [← h2.2.1]
      exact List.mem_append_left _ hx

theorem effDest_elim (env : TipsEnv) (h : RemoteHead) (dE : String) (oE : Oid)
    (heff : effDest env h = some (dE, oE)) :
    ∃ a, tipDest env h = DestCase.dest dE a ∧ oE = h.oid ∧
      ¬(a = true ∧ env.odb h.oid = false) := by
  unfold effDest at heff
  cases hd : tipDest env h with
  | skip => rw [hd] at heff; simp at heff
  | abortT => rw [hd] at heff; simp at heff
  | dest d' a =>
    rw [hd] at heff
    have heff2 : (if a && !env.odb h.oid then Option.none
        else some (d', h.oid)) = some (dE, oE) := heff
    by_cases hb : (a && !env.odb h.oid) = true
    · rw [if_pos hb] at heff2
      simp at heff2
    · rw [if_neg (by simpa using hb)] at heff2
      simp only [Option.some.injEq, Prod.mk.injEq] at heff2
      obtain ⟨h1, h2⟩ := heff2
      subst h1
      refine ⟨a, rfl, h2.symm, fun hc => ?_⟩
      rw [Bool.not_eq_true] at hb
      rw [hc.1, hc.2] at hb
      simp at hb

theorem destOids_cons_none (env : TipsEnv) (p : Pkt) (rest : List Pkt)
    (hpe : pktEff env p = Option.none) :
    destOids env (p :: rest) = destOids env rest := by
  simp [destOids, List.filterMap_cons, hpe]

theorem destOids_cons_some (env : TipsEnv) (p : Pkt) (rest : List Pkt)
    (pe : String × Oid) (hpe : pktEff env p = some pe) :
    destOids env (p :: rest) = pe :: destOids env rest := by
  simp [destOids, List.filterMap_cons, hpe]

theorem destOids_tail_mem (env : TipsEnv) (p : Pkt) (rest : List Pkt) (d : String)
    (o : Oid) (hm : (d, o) ∈ destOids env rest) : (d, o) ∈ destOids env (p :: rest) := by
  cases hpe : pktEff env p with
  | none => rw [destOids_cons_none env p rest hpe]; exact hm
  | some pe =>
    rw [destOids_cons_some env p rest pe hpe]
    exact List.mem_cons_of_mem pe hm

theorem destOids_mem_of_eff (env : TipsEnv) (q : Pkt) (d2 : String) (o2 : Oid) :
    ∀ rest : List Pkt, q ∈ rest → pktEff env q = some (d2, o2) →
      (d2, o2) ∈ destOids env rest := by
  intro rest hq hpe
  rw [destOids, List.mem_filterMap]
  exact ⟨q, hq, hpe⟩

theorem updateStep_post (env : TipsEnv) (db : RefDb) (h : RemoteHead) (d : String)
    (a : Bool) (hd : tipDest env h = DestCase.dest d a)
    (hno : ¬(a = true ∧ env.odb h.oid = false))
    (db' : RefDb) (evs : List Ev)
    (hstep : updateStep env db (Pkt.ref h) = (db', evs, StepOut.cont))
    (hok : ∀ ev ∈ evs, evOk ev) :
    (db' d).getD zeroOid = h.oid ∧ ∀ n, n ≠ d → db' n = db n := by
  have hb : (a && !env.odb h.oid) = false := by
    cases a with
    | false => rfl
    | true =>
      cases ho : env.odb h.oid with
      | false => exact absurd ⟨rfl, ho⟩ hno
      | true => simp [ho]
  simp only [updateStep, hd, hb, Bool.false_eq_true, if_false] at hstep
  by_cases heq : ((db d).getD zeroOid) = h.oid
  · rw [if_pos heq] at hstep
    simp only [Prod.mk.injEq] at hstep
    rw [← hstep.1]
    exact ⟨heq, fun n _ => rfl⟩
  · rw [if_neg heq] at hstep
    unfold referenceCreateOid at hstep
    by_cases hf : env.fail d = true
    · rw [if_pos hf] at hstep
      simp at hstep
    · rw [if_neg (by simpa using hf)] at hstep
      by_cases hsa : ((db d).isSome && !(!a)) = true
      · rw [if_pos hsa] at hstep
        have hstep2 : stepNotify env db [Ev.create d h.oid (!a) false] d
            ((db d).getD zeroOid) h.oid = (db', evs, StepOut.cont) := hstep
        obtain ⟨-, hsub⟩ := stepNotify_cases env db _ d _ h.oid db' evs hstep2
        have hbad : evOk (Ev.create d h.oid (!a) false) :=
          hok _ (hsub _ (List.mem_cons_self _ _))
        simp [evOk] at hbad
      · rw [if_neg (by simpa using hsa)] at hstep
        have hstep2 : stepNotify env (fun m => if m = d then some h.oid else db m)
            [Ev.create d h.oid (!a) true] d ((db d).getD zeroOid) h.oid =
            (db', evs, StepOut.cont) := hstep
        obtain ⟨hdb, -⟩ := stepNotify_cases env _ _ d _ h.oid db' evs hstep2
        rw [hdb]
        constructor
        · simp
        · intro n hn
          simp [hn]

theorem processRefs_sets (env : TipsEnv) :
    ∀ (l : List Pkt) (db db1 : RefDb) (t1 : List Ev),
      processRefs env db l = (db1, t1, Option.none) →
      (∀ ev ∈ t1, evOk ev) →
      ((destOids env l).map Prod.fst).Nodup →
      ∀ d o, (d, o) ∈ destOids env l → (db1 d).getD zeroOid = o := by
  intro l
  induction l with
  | nil => intro db db1 t1 _ _ _ d o hm; simp [destOids] at hm
  | cons p rest ih =>
    intro db db1 t1 hrun hok hnd d o hm
    simp only [processRefs] at hrun
    cases hout : (updateStep env db p).2.2 with
    | abort e =>
      rw [hout] at hrun
      have hrun2 : ((updateStep env db p).1, (updateStep env db p).2.1, some e) =
          (db1, t1, (Option.none : Option GitErr)) := hrun
      simp only [Prod.mk.injEq] at hrun2
      exact absurd hrun2.2.2 (by simp)
    | cont =>
      rw [hout] at hrun
      have hrun2 : ((processRefs env (updateStep env db p).1 rest).1,
          (updateStep env db p).2.1 ++ (processRefs env (updateStep env db p).1 rest).2.1,
          (processRefs env (updateStep env db p).1 rest).2.2) =
          (db1, t1, (Option.none : Option GitErr)) := hrun
      simp only [Prod.mk.injEq] at hrun2
      obtain ⟨h1, h2, h3⟩ := hrun2
      have hres : processRefs env (updateStep env db p).1 rest =
          (db1, (processRefs env (updateStep env db p).1 rest).2.1, Option.none) := by
        rw [← h1, ← h3]
      have hokRest : ∀ ev ∈ (processRefs env (updateStep env db p).1 rest).2.1, evOk ev :=
        fun ev hev => hok ev (by rw [← h2]; exact List.mem_append_right _ hev)
      have hokStep : ∀ ev ∈ (updateStep env db p).2.1, evOk ev :=
        fun ev hev => hok ev (by rw [← h2]; exact List.mem_append_left _ hev)
      cases hpe : pktEff env p with
      | none =>
        rw [destOids_cons_none env p rest hpe] at hm hnd
        exact ih (updateStep env db p).1 db1 _ hres hokRest hnd d o hm
      | some pe =>
        obtain ⟨dE, oE⟩ := pe
        rw [destOids_cons_some env p rest (dE, oE) hpe] at hm hnd
        rw [List.map_cons, List.nodup_cons] at hnd
        rcases List.mem_cons.mp hm with hm | hm
        · simp only [Prod.mk.injEq] at hm
          obtain ⟨hdd, hoo⟩ := hm
          subst hdd
          subst hoo
          cases p with
          | other => simp [pktEff] at hpe
          | ref hh =>
            have heff : effDest env hh = some (d, o) := hpe
            obtain ⟨a, hdest, hoid, hno⟩ := effDest_elim env hh d o heff
            have hstep : updateStep env db (Pkt.ref hh) =
                ((updateStep env db (Pkt.ref hh)).1, (updateStep env db (Pkt.ref hh)).2.1,
                 StepOut.cont) := by
              rw [← hout]
            obtain ⟨hval, -⟩ := updateStep_post env db hh d a hdest hno
              (updateStep env db (Pkt.ref hh)).1 (updateStep env db (Pkt.ref hh)).2.1
              hstep hokStep
            have hframe : (processRefs env (updateStep env db (Pkt.ref hh)).1 rest).1 d =
                (updateStep env db (Pkt.ref hh)).1 d := by
              apply processRefs_frame
              intro q hq d2 o2 hpe2 hd2
              subst hd2
              exact hnd.1 (by
                rw [List.mem_map]
                exact ⟨(d2, o2), destOids_mem_of_eff env q d2 o2 rest hq hpe2, rfl⟩)
            rw [← h1, hframe, hval, hoid]
        · exact ih (updateStep env db p).1 db1 _ hres hokRest hnd.2 d o hm

theorem processRefs_noop (env : TipsEnv) :
    ∀ (l : List Pkt) (db : RefDb),
      (∀ h, Pkt.ref h ∈ l → tipDest env h ≠ DestCase.abortT) →
      (∀ d o, (d, o) ∈ destOids env l → (db d).getD zeroOid = o) →
      processRefs env db l = (db, [], Option.none) := by
  intro l
  induction l with
  | nil => intro db _ _; rfl
  | cons p rest ih =>
    intro db hna hset
    have hstep : updateStep env db p = (db, [], StepOut.cont) := by
      cases p with
      | other => rfl
      | ref h =>
        cases hd : tipDest env h with
        | skip => exact updateStep_skip env db h hd
        | abortT => exact absurd hd (hna h (List.mem_cons_self _ _))
        | dest d a =>
          by_cases hb : (a && !env.odb h.oid) = true
          · rw [Bool.and_eq_true, Bool.not_eq_true'] at hb
            rw [hb.1] at hd
            exact updateStep_autoskip env db h d hd hb.2
          · have hmem : (d, h.oid) ∈ destOids env (Pkt.ref h :: rest) := by
              rw [destOids_cons_some env (Pkt.ref h) rest (d, h.oid)
                (by
                  show effDest env h = some (d, h.oid)
                  unfold effDest
                  rw [hd]
                  show (if (a && !env.odb h.oid) = true then Option.none
                    else some (d, h.oid)) = some (d, h.oid)
                  rw [if_neg (by simpa using hb)])]
              exact List.mem_cons_self _ _
            exact updateStep_uptodate env db h d a hd (hset d h.oid hmem)
    simp only [processRefs, hstep]
    have hrest := ih db (fun h hm => hna h (List.mem_cons_of_mem p hm))
      (fun d o hm => hset d o (destOids_tail_mem env p rest d o hm))
    rw [hrest]
    simp

/-- C4 (amended): tip synchronization is idempotent only under side
conditions: if a successful first run's advertised list does not begin with a
HEAD-named entry, every `git_reference_create_oid` call of the first run
succeeded (no tolerated auto-tag collision), and the destinations the list
can update are pairwise distinct, then a second run from the resulting
reference store performs zero ref writes, fires zero notifications and
succeeds.  Without those conditions a second run can write and notify again
(see the counterexample). -/
theorem c4_second_run_noop (env : TipsEnv) (db db1 : RefDb) (t1 : List Ev)
    (refs : List Pkt)
    (hhead : isHeadFirst refs = false)
    (hrun1 : updateTips env db refs = (db1, t1, Option.none))
    (hok : ∀ ev ∈ t1, evOk ev)
    (hnd : ((destOids env refs).map Prod.fst).Nodup) :
    updateTips env db1 refs = (db1, [], Option.none) := by
  rw [updateTips_eq_processRefs env db refs hhead] at hrun1
  rw [updateTips_eq_processRefs env db1 refs hhead]
  have hna := processRefs_no_abortT env refs db (by rw [hrun1])
  have hsets := processRefs_sets env refs db db1 t1 hrun1 hok hnd
  exact processRefs_noop env refs db1 hna hsets

theorem c4_counterexample :
    (updateTips envA dbTag [Pkt.ref ⟨"refs/tags/v1", 5⟩]).2.2 = Option.none
    ∧ Ev.notify "refs/tags/v1" 7 5 ∈
        (updateTips envA (updateTips envA dbTag [Pkt.ref ⟨"refs/tags/v1", 5⟩]).1
          [Pkt.ref ⟨"refs/tags/v1", 5⟩]).2.1 :=
  ⟨by decide, by decide⟩

theorem c4_witness :
    updateTips envA (updateTips envA dbEmpty [Pkt.ref ⟨"refs/heads/m", 5⟩]).1
        [Pkt.ref ⟨"refs/heads/m", 5⟩] =
      ((updateTips envA dbEmpty [Pkt.ref ⟨"refs/heads/m", 5⟩]).1, [], Option.none) := by
  apply c4_second_run_noop envA dbEmpty
    (updateTips envA dbEmpty [Pkt.ref ⟨"refs/heads/m", 5⟩]).1
    (updateTips envA dbEmpty [Pkt.ref ⟨"refs/heads/m", 5⟩]).2.1
    [Pkt.ref ⟨"refs/heads/m", 5⟩]
  · decide
  · have h22 : (updateTips envA dbEmpty [Pkt.ref ⟨"refs/heads/m", 5⟩]).2.2 =
        Option.none := by decide
    rw [← h22]
  · decide
  · decide
